import Mathlib

/-!
# Ice string converters

A shallow embedding of `cpp/src/Ice/StringConverter.cpp`:
`UnicodeWstringConverter::toUTF8`, `UnicodeWstringConverter::fromUTF8`,
`WindowsStringConverter::toUTF8` and `WindowsStringConverter::fromUTF8`.

Pointers are offsets (natural numbers): a source pointer is an offset into the
source range, a target pointer an offset into the bytes of the `UTF8Buffer`.
The collaborators the file calls but does not define (the Unicode transcoding
functions of IceUtil, the Win32 conversion routines, the `UTF8Buffer` handed in
by the caller) are arguments of the embedded functions.  Loops that retry are
given a fuel argument counting the invocations of the collaborator that they
may still make.
-/

namespace Ice

/-- A byte of a narrow or UTF-8 string (`Byte`, `char`). -/
abbrev Byte := Nat

/-- A wide character unit (`wchar_t`). -/
abbrev Wchar := Nat

/-- Modelled from the spec: the conversion outcome (`ConversionResult` of
IceUtil/Unicode.h, which is not part of the source at hand).  `unexpected`
stands for every value outside the known set, the one the `default:` label of
the two `switch` statements catches. -/
inductive ConversionResult
  | conversionOK
  | sourceExhausted
  | targetExhausted
  | sourceIllegal
  | unexpected
  deriving DecidableEq, Repr

/-- Modelled from the spec: the conversion flags (`ConversionFlags` of
IceUtil/Unicode.h), passed through to the transcoding capability untouched. -/
inductive ConversionFlags
  | strictConversion
  | lenientConversion
  deriving DecidableEq, Repr

/-- What a call can throw: `StringConversionException(__FILE__, __LINE__, reason)`
(the two-argument constructor leaves the reason empty), or the `std::bad_alloc`
of an array `new` that cannot be satisfied. -/
inductive Thrown
  | stringConversionException (reason : String)
  | badAlloc
  deriving DecidableEq, Repr

/-- How a call ends: it returns a value or it throws. -/
inductive Call (α : Type)
  | returned (value : α)
  | threw (e : Thrown)
  deriving DecidableEq, Repr

/-- Modelled from the spec: the growable byte sink (`UTF8Buffer`, an abstract
class whose implementations belong to the callers).  `bytes` is the content of
the buffer, the current window included; `requests` logs every call of
`getMoreBytes` as (howMany, firstUnused), with `none` for the null pointer. -/
structure UTF8Buffer where
  bytes : List Byte
  requests : List (Nat × Option Nat)
  deriving DecidableEq, Repr

/-- Modelled from the spec: `requestMoreCapacity(chunkSize, previousWindowStart)`
keeps the bytes already committed (those before `firstUnused`; all of them when
`firstUnused` is null) and returns the start of a new window of `howMany`
writable bytes that begins right after them. -/
def UTF8Buffer.getMoreBytes (buffer : UTF8Buffer) (howMany : Nat)
    (firstUnused : Option Nat) : Nat × UTF8Buffer :=
  let kept := match firstUnused with
    | none => buffer.bytes
    | some p => buffer.bytes.take p
  (kept.length,
    { bytes := kept ++ List.replicate howMany 0,
      requests := buffer.requests ++ [(howMany, firstUnused)] })

/-- A sink nothing was written to and nothing was asked of. -/
def UTF8Buffer.fresh : UTF8Buffer := { bytes := [], requests := [] }

/-- Storing the bytes `w` at offset `start` of a buffer. -/
def store (bytes : List Byte) (start : Nat) (w : List Byte) : List Byte :=
  bytes.take start ++ w ++ bytes.drop (start + w.length)

/-- What one invocation of `convertUTFWstringToUTF8` does: its result, by how
many units it advanced `sourceStart` (passed by reference), and the bytes it
stored from `targetStart` on (`targetStart` advances by their number). -/
structure WideToUtf8Step where
  result : ConversionResult
  sourceAdvance : Nat
  written : List Byte
  deriving DecidableEq, Repr

/-- The capability `convertUTFWstringToUTF8(sourceStart, sourceEnd, targetStart,
targetEnd, flags)`: from the source range still to convert, the size of the
window `targetEnd - targetStart` and the flags, to what the invocation does. -/
abbrev WideToUtf8 := List Wchar → Nat → ConversionFlags → WideToUtf8Step

/-- The capability `convertUTF8ToUTFWstring(sourceStart, sourceEnd, target,
flags)`: from the source bytes, the content of `target` before the call and
the flags, to the result and the content of `target` after the call. -/
abbrev Utf8ToWide := List Byte → List Wchar → ConversionFlags → ConversionResult × List Wchar

namespace UnicodeWstringConverter

/-- The local variables of `toUTF8` while its loop runs. -/
structure ToUTF8State where
  sourceStart : Nat
  targetStart : Nat
  targetEnd : Nat
  buffer : UTF8Buffer
  deriving DecidableEq, Repr

/-- One evaluation of the loop condition of `toUTF8`: the call of
`convertUTFWstringToUTF8`, which advances `sourceStart` and `targetStart` and
stores into the window. -/
def convertStep (conv : WideToUtf8) (flags : ConversionFlags) (source : List Wchar)
    (st : ToUTF8State) : ConversionResult × ToUTF8State :=
  let r := conv (source.drop st.sourceStart) (st.targetEnd - st.targetStart) flags
  (r.result,
    { sourceStart := st.sourceStart + r.sourceAdvance,
      targetStart := st.targetStart + r.written.length,
      targetEnd := st.targetEnd,
      buffer := { st.buffer with bytes := store st.buffer.bytes st.targetStart r.written } })

/-- The body of the loop of `toUTF8`:
`targetStart = buffer.getMoreBytes(chunkSize, targetStart);
 targetEnd = targetStart + chunkSize;`. -/
def growStep (chunkSize : Nat) (st : ToUTF8State) : ToUTF8State :=
  let g := st.buffer.getMoreBytes chunkSize (some st.targetStart)
  { st with targetStart := g.1, targetEnd := g.1 + chunkSize, buffer := g.2 }

/-- The loop `while((result = convertUTFWstringToUTF8(...)) == targetExhausted)`
of `toUTF8`, allowed `fuel` invocations of the capability.  The result is `none`
when the fuel ran out with the loop still running; the state reached is
returned in both cases. -/
def toUTF8Loop (conv : WideToUtf8) (flags : ConversionFlags) (source : List Wchar)
    (chunkSize : Nat) : Nat → ToUTF8State → Option ConversionResult × ToUTF8State
  | 0, st => (none, st)
  | fuel + 1, st =>
    let s := convertStep conv flags source st
    if s.1 = ConversionResult.targetExhausted then
      toUTF8Loop conv flags source chunkSize fuel (growStep chunkSize s.2)
    else
      (some s.1, s.2)

/-- The state in which `toUTF8` enters its loop:
`chunkSize = max(sourceEnd - sourceStart, 6)`,
`targetStart = buffer.getMoreBytes(chunkSize, 0)`,
`targetEnd = targetStart + chunkSize`. -/
def toUTF8Init (source : List Wchar) (buffer : UTF8Buffer) : ToUTF8State :=
  let chunkSize := max source.length 6
  let g := buffer.getMoreBytes chunkSize none
  { sourceStart := 0, targetStart := g.1, targetEnd := g.1 + chunkSize, buffer := g.2 }

/-- The statements of `toUTF8` up to the end of its loop: the final result of
the capability (`none` when the loop is still running after `fuel`
invocations) and the local variables at that point. -/
def toUTF8Run (conv : WideToUtf8) (flags : ConversionFlags) (fuel : Nat)
    (source : List Wchar) (buffer : UTF8Buffer) : Option ConversionResult × ToUTF8State :=
  toUTF8Loop conv flags source (max source.length 6) fuel (toUTF8Init source buffer)

/-- The `switch(result)` that ends `toUTF8`, and its `return targetStart`.
(`assert(0)` is compiled out of a release build; the `throw` after it is what
the `default:` label does then.) -/
def toUTF8Switch (result : ConversionResult) (targetStart : Nat) : Call Nat :=
  match result with
  | ConversionResult.conversionOK => Call.returned targetStart
  | ConversionResult.sourceExhausted =>
    Call.threw (Thrown.stringConversionException "wide string source exhausted")
  | ConversionResult.sourceIllegal =>
    Call.threw (Thrown.stringConversionException "wide string source illegal")
  | _ => Call.threw (Thrown.stringConversionException "")

/-- `UnicodeWstringConverter::toUTF8(sourceStart, sourceEnd, buffer)` on the
source range `source`, with `conv` for `convertUTFWstringToUTF8` and `flags`
for `_conversionFlags`.  The first component is `none` when the loop is still
running after `fuel` invocations of the capability; the second is the sink as
the call left it. -/
def toUTF8 (conv : WideToUtf8) (flags : ConversionFlags) (fuel : Nat)
    (source : List Wchar) (buffer : UTF8Buffer) : Option (Call Nat) × UTF8Buffer :=
  let l := toUTF8Run conv flags fuel source buffer
  match l.1 with
  | none => (none, l.2.buffer)
  | some result => (some (toUTF8Switch result l.2.targetStart), l.2.buffer)

/-- The offset in the source at which the `k`-th invocation (`k` = 0, 1, ...)
of `convertUTFWstringToUTF8` by `toUTF8` starts: the first one starts at
`sourceStart`, and every invocation advances `sourceStart`, which it is passed
by reference, for the next one.  Every invocation is given a window of
`chunkSize` bytes. -/
def invocationOffset (conv : WideToUtf8) (flags : ConversionFlags) (source : List Wchar)
    (chunkSize : Nat) : Nat → Nat
  | 0 => 0
  | k + 1 =>
    invocationOffset conv flags source chunkSize k
      + (conv (source.drop (invocationOffset conv flags source chunkSize k)) chunkSize
          flags).sourceAdvance

/-- The result the capability reports at its `k`-th invocation by `toUTF8` on
`source`: that of `convertUTFWstringToUTF8` on the source from the offset of
that invocation on, with a window of `max(n, 6)` bytes. -/
def invocationResult (conv : WideToUtf8) (flags : ConversionFlags) (source : List Wchar)
    (k : Nat) : ConversionResult :=
  (conv (source.drop (invocationOffset conv flags source (max source.length 6) k))
    (max source.length 6) flags).result

/-- What `fromUTF8` leaves behind: how the call ended, the content of `target`,
and how many times the transcoding capability was invoked. -/
structure FromUTF8Result where
  call : Call Unit
  target : List Wchar
  invocations : Nat
  deriving DecidableEq, Repr

/-- The `switch(result)` that ends `fromUTF8`. -/
def fromUTF8Switch (result : ConversionResult) : Call Unit :=
  match result with
  | ConversionResult.conversionOK => Call.returned ()
  | ConversionResult.sourceExhausted =>
    Call.threw (Thrown.stringConversionException "UTF-8 string source exhausted")
  | ConversionResult.sourceIllegal =>
    Call.threw (Thrown.stringConversionException "UTF-8 string source illegal")
  | _ => Call.threw (Thrown.stringConversionException "")

/-- `UnicodeWstringConverter::fromUTF8(sourceStart, sourceEnd, target)` on the
source range `source`, with `conv` for `convertUTF8ToUTFWstring`. -/
def fromUTF8 (conv : Utf8ToWide) (flags : ConversionFlags) (source : List Byte)
    (target : List Wchar) : FromUTF8Result :=
  if source = [] then
    { call := Call.returned (), target := [], invocations := 0 }
  else
    let r := conv source target flags
    { call := fromUTF8Switch r.1, target := r.2, invocations := 1 }

end UnicodeWstringConverter

/-! ## What the transcoding capability is expected to do -/

/-- Modelled from the spec: the capability transcodes a range and, when the
window is exhausted, is retried "from where it left off".  With `utf8` the
complete UTF-8 encoding of a wide range: an invocation that reports
`targetExhausted` has stored the encoding of the units it advanced over, and
what is left to store is the encoding of the rest of the range; an invocation
that reports `conversionOK` has stored the encoding of the whole range given. -/
structure Resumes (conv : WideToUtf8) (utf8 : List Wchar → List Byte) : Prop where
  exhausted : ∀ src cap flags,
    (conv src cap flags).result = ConversionResult.targetExhausted →
      utf8 src = (conv src cap flags).written ++ utf8 (src.drop (conv src cap flags).sourceAdvance)
  ok : ∀ src cap flags,
    (conv src cap flags).result = ConversionResult.conversionOK →
      utf8 src = (conv src cap flags).written

/-- Modelled from the spec: a capability that needs at most 6 bytes for a
source unit (`need u` bytes for the unit `u`) and that, when it reports
`targetExhausted`, has advanced over every unit whose encoding fitted in the
window: the unit it stopped at exists and did not fit after the ones before. -/
structure SixBytesPerUnit (conv : WideToUtf8) (need : Wchar → Nat) : Prop where
  need_le : ∀ u, need u ≤ 6
  exhausted : ∀ src cap flags,
    (conv src cap flags).result = ConversionResult.targetExhausted →
      ∃ u, src.get? (conv src cap flags).sourceAdvance = some u ∧
        cap < ((src.take (conv src cap flags).sourceAdvance).map need).sum + need u

/-! ## A transcoding capability: UTF-32 wide characters and UTF-8 -/

/-- Modelled from the spec: a well-formed Unicode scalar value, that is a code
point up to U+10FFFF that is no surrogate. -/
def isScalarValue (c : Nat) : Prop := c < 0xD800 ∨ (0xE000 ≤ c ∧ c ≤ 0x10FFFF)

instance : DecidablePred isScalarValue := fun c => by
  unfold isScalarValue
  exact inferInstance

/-- Modelled from the spec: the UTF-8 encoding of one scalar value, of one to
four bytes. -/
def encodeChar (c : Nat) : List Nat :=
  if c < 0x80 then [c]
  else if c < 0x800 then [0xC0 + c / 64, 0x80 + c % 64]
  else if c < 0x10000 then [0xE0 + c / 4096, 0x80 + c / 64 % 64, 0x80 + c % 64]
  else [0xF0 + c / 262144, 0x80 + c / 4096 % 64, 0x80 + c / 64 % 64, 0x80 + c % 64]

/-- The complete UTF-8 encoding of a wide range. -/
def utf8Encoding (w : List Wchar) : List Byte := w.flatMap encodeChar

/-- Modelled from the spec: the capability `convertUTFWstringToUTF8` of IceUtil
(not part of the source at hand), for a 32-bit `wchar_t`: it encodes unit after
unit while the encoding fits in the window, reports `targetExhausted` at the
first unit whose encoding does not fit, `sourceIllegal` at a unit that is no
scalar value, and `conversionOK` at the end of the range.  The flags are passed
in and change nothing here. -/
def convertUTFWstringToUTF8 : List Wchar → Nat → ConversionFlags → WideToUtf8Step
  | [], _, _ => { result := ConversionResult.conversionOK, sourceAdvance := 0, written := [] }
  | c :: rest, cap, flags =>
    if isScalarValue c then
      if (encodeChar c).length ≤ cap then
        let r := convertUTFWstringToUTF8 rest (cap - (encodeChar c).length) flags
        { result := r.result, sourceAdvance := r.sourceAdvance + 1,
          written := encodeChar c ++ r.written }
      else
        { result := ConversionResult.targetExhausted, sourceAdvance := 0, written := [] }
    else
      { result := ConversionResult.sourceIllegal, sourceAdvance := 0, written := [] }

/-- Putting a decoded character in front of what the rest decodes to. -/
def emit (c : Nat) (r : ConversionResult × List Nat) : ConversionResult × List Nat :=
  (r.1, c :: r.2)

/-- Modelled from the spec: decoding UTF-8 byte after byte.  `pending` is the
number of continuation bytes the sequence under way still lacks, `acc` the
value read so far and `least` the least value a sequence of that length may
encode.  The input ending inside a sequence is `sourceExhausted`; an isolated
continuation byte, a byte that is no lead byte, a missing continuation byte, an
overlong encoding and a value that is no scalar value are `sourceIllegal`. -/
def decodeFrom : List Nat → Nat → Nat → Nat → ConversionResult × List Nat
  | [], pending, _, _ =>
    if pending = 0 then (ConversionResult.conversionOK, [])
    else (ConversionResult.sourceExhausted, [])
  | b :: rest, 0, _, _ =>
    if b < 0x80 then emit b (decodeFrom rest 0 0 0)
    else if b < 0xC0 then (ConversionResult.sourceIllegal, [])
    else if b < 0xE0 then decodeFrom rest 1 (b - 0xC0) 0x80
    else if b < 0xF0 then decodeFrom rest 2 (b - 0xE0) 0x800
    else if b < 0xF8 then decodeFrom rest 3 (b - 0xF0) 0x10000
    else (ConversionResult.sourceIllegal, [])
  | b :: rest, pending + 1, acc, least =>
    if 0x80 ≤ b ∧ b < 0xC0 then
      if pending = 0 then
        if least ≤ acc * 64 + (b - 0x80) ∧ isScalarValue (acc * 64 + (b - 0x80)) then
          emit (acc * 64 + (b - 0x80)) (decodeFrom rest 0 0 0)
        else (ConversionResult.sourceIllegal, [])
      else decodeFrom rest pending (acc * 64 + (b - 0x80)) least
    else (ConversionResult.sourceIllegal, [])

/-- Modelled from the spec: the capability `convertUTF8ToUTFWstring` of IceUtil
(not part of the source at hand), for a 32-bit `wchar_t`: the whole range is
transcoded in one pass, and `target` receives the wide characters when the
result is `conversionOK` and is left alone otherwise. -/
def convertUTF8ToUTFWstring : Utf8ToWide := fun source target _ =>
  let d := decodeFrom source 0 0 0
  if d.1 = ConversionResult.conversionOK then (ConversionResult.conversionOK, d.2)
  else (d.1, target)

/-! ## The Windows converter -/

/-- The value of an `int` expression: 32 bits, two's complement. -/
def int32 (x : Int) : Int := (x + 2147483648) % 4294967296 - 2147483648

/-- The Win32 flag `MB_ERR_INVALID_CHARS`. -/
def MB_ERR_INVALID_CHARS : Nat := 8

/-- The Win32 error code `ERROR_INSUFFICIENT_BUFFER`. -/
def ERROR_INSUFFICIENT_BUFFER : Nat := 122

/-- What one invocation of `MultiByteToWideChar` or `WideCharToMultiByte`
leaves behind: the value it returns (the number of units written, 0 on
failure), the content of the destination buffer, and `GetLastError()`. -/
structure OsResult (α : Type) where
  written : Nat
  buffer : List α
  lastError : Nat
  deriving DecidableEq, Repr

/-- The capability `MultiByteToWideChar(CodePage, dwFlags, lpMultiByteStr,
cbMultiByte, lpWideCharStr, cchWideChar)`. -/
abbrev MultiByteToWideChar := Nat → Nat → List Byte → Int → Int → OsResult Wchar

/-- The capability `WideCharToMultiByte(CodePage, dwFlags, lpWideCharStr,
cchWideChar, lpMultiByteStr, cbMultiByte, 0, 0)`. -/
abbrev WideCharToMultiByte := Nat → Nat → List Wchar → Int → Int → OsResult Byte

/-- How a `do ... while` retry loop of the Windows converter ends: still
running when the fuel ran out, with the `std::bad_alloc` of an array `new` of
negative size, or with the last result of the OS capability. -/
inductive RetryEnd (α : Type)
  | running
  | badAlloc
  | finished (r : OsResult α)
  deriving DecidableEq, Repr

namespace WindowsStringConverter

/-- The loop both legs share:
`do { size = size == 0 ? sourceSize + 2 : 2 * size; buffer.reset(new T[size]);
written = call(size); } while(written == 0 && GetLastError() ==
ERROR_INSUFFICIENT_BUFFER);` with `size` an `int`, allowed `fuel` invocations of
the OS capability `call`.  An array `new` whose size has become negative cannot
be satisfied and throws.  The list is the capacities `call` was given, in
order. -/
def retry {α : Type} (call : Int → OsResult α) (sourceSize : Int) :
    Nat → Int → List Int → RetryEnd α × List Int
  | 0, _, given => (RetryEnd.running, given)
  | fuel + 1, size, given =>
    let size1 := if size = 0 then int32 (sourceSize + 2) else int32 (2 * size)
    if size1 < 0 then (RetryEnd.badAlloc, given)
    else
      let r := call size1
      if r.written = 0 ∧ r.lastError = ERROR_INSUFFICIENT_BUFFER then
        retry call sourceSize fuel size1 (given ++ [size1])
      else (RetryEnd.finished r, given ++ [size1])

/-- What `WindowsStringConverter::toUTF8` leaves behind: how the call ended
(`none` when a loop was still running as its fuel ran out), the sink, and the
(dwFlags, cchWideChar) of every invocation of `MultiByteToWideChar`. -/
structure ToUTF8Result where
  call : Option (Call Nat)
  buffer : UTF8Buffer
  invocations : List (Nat × Int)
  deriving DecidableEq, Repr

/-- `WindowsStringConverter::toUTF8(sourceStart, sourceEnd, buffer)` on the
source range `source`, with `cp` for `_cp`, `os` for `MultiByteToWideChar`,
`conv` and `flags` for the capability and the flags of the member
`_unicodeWstringConverter`, and `lastErrorToString` for the function of that
name applied to `GetLastError()`.  `osFuel` bounds the invocations of `os`,
`fuel` those of `conv`. -/
def toUTF8 (os : MultiByteToWideChar) (conv : WideToUtf8) (flags : ConversionFlags)
    (lastErrorToString : Nat → String) (cp : Nat) (osFuel fuel : Nat)
    (source : List Byte) (buffer : UTF8Buffer) : ToUTF8Result :=
  let sourceSize := int32 source.length
  if sourceSize = 0 then
    let g := buffer.getMoreBytes 1 none
    { call := some (Call.returned g.1), buffer := g.2, invocations := [] }
  else
    let l := retry (fun size => os cp MB_ERR_INVALID_CHARS source sourceSize size)
      sourceSize osFuel 0 []
    let invocations := l.2.map (fun size => (MB_ERR_INVALID_CHARS, size))
    match l.1 with
    | RetryEnd.running => { call := none, buffer := buffer, invocations := invocations }
    | RetryEnd.badAlloc =>
      { call := some (Call.threw Thrown.badAlloc), buffer := buffer, invocations := invocations }
    | RetryEnd.finished r =>
      if r.written = 0 then
        { call := some (Call.threw
            (Thrown.stringConversionException (lastErrorToString r.lastError))),
          buffer := buffer, invocations := invocations }
      else
        let u := UnicodeWstringConverter.toUTF8 conv flags fuel (r.buffer.take r.written) buffer
        { call := u.1, buffer := u.2, invocations := invocations }

/-- What `WindowsStringConverter::fromUTF8` leaves behind: how the call ended
(`none` when the loop was still running as its fuel ran out), the content of
`target`, and the (dwFlags, cbMultiByte) of every invocation of
`WideCharToMultiByte`. -/
structure FromUTF8Result where
  call : Option (Call Unit)
  target : List Byte
  invocations : List (Nat × Int)
  deriving DecidableEq, Repr

/-- `WindowsStringConverter::fromUTF8(sourceStart, sourceEnd, target)` on the
source range `source`, with `dec` and `flags` for the capability and the flags
of the member `_unicodeWstringConverter`, and `os` for `WideCharToMultiByte`.
The local `wtarget` starts empty. -/
def fromUTF8 (dec : Utf8ToWide) (os : WideCharToMultiByte) (flags : ConversionFlags)
    (lastErrorToString : Nat → String) (cp : Nat) (osFuel : Nat)
    (source : List Byte) (target : List Byte) : FromUTF8Result :=
  if source = [] then
    { call := some (Call.returned ()), target := [], invocations := [] }
  else
    let u := UnicodeWstringConverter.fromUTF8 dec flags source []
    match u.call with
    | Call.threw e => { call := some (Call.threw e), target := target, invocations := [] }
    | Call.returned _ =>
      let l := retry (fun size => os cp 0 u.target (int32 u.target.length) size)
        (int32 source.length) osFuel 0 []
      let invocations := l.2.map (fun size => ((0 : Nat), size))
      match l.1 with
      | RetryEnd.running => { call := none, target := target, invocations := invocations }
      | RetryEnd.badAlloc =>
        { call := some (Call.threw Thrown.badAlloc), target := target,
          invocations := invocations }
      | RetryEnd.finished r =>
        if r.written = 0 then
          { call := some (Call.threw
              (Thrown.stringConversionException (lastErrorToString r.lastError))),
            target := target, invocations := invocations }
        else
          { call := some (Call.returned ()), target := r.buffer.take r.written,
            invocations := invocations }

end WindowsStringConverter

/-! ## OS capabilities to run the Windows converter on -/

/-- Modelled from the spec: an OS capability that reports insufficient-buffer
while the capacity is below the required size `required`, and from there on
succeeds, writing `required` units. -/
def SucceedsFrom {α : Type} (call : Int → OsResult α) (required : Int) : Prop :=
  ∀ size : Int,
    (size < required →
      (call size).written = 0 ∧ (call size).lastError = ERROR_INSUFFICIENT_BUFFER) ∧
    (required ≤ size → (call size).written ≠ 0)

/-- An OS capability that needs a capacity of `required` units, whatever the
source: it reports insufficient-buffer below that and writes `required` zero
units from there on. -/
def needing (required : Int) : Int → OsResult Nat := fun size =>
  if size < required then
    { written := 0, buffer := [], lastError := ERROR_INSUFFICIENT_BUFFER }
  else
    { written := required.toNat, buffer := List.replicate required.toNat 0, lastError := 0 }

/-- The Win32 error code `ERROR_NO_UNICODE_TRANSLATION`. -/
def ERROR_NO_UNICODE_TRANSLATION : Nat := 1113

/-- Modelled from the spec: the OS capability `wideToNarrow(codePage,
strictFlag, ...)` for the 7-bit code page US-ASCII.  A wide character above
U+007F has no representation there: in strict mode (any flag set) the
conversion fails, otherwise the character is replaced by the default character
`?`.  A capacity too small for the output is insufficient-buffer. -/
def asciiWideCharToMultiByte : WideCharToMultiByte := fun _ dwFlags source cchWideChar size =>
  let wide := source.take cchWideChar.toNat
  if dwFlags ≠ 0 ∧ wide.any (fun c => decide (0x80 ≤ c)) then
    { written := 0, buffer := [], lastError := ERROR_NO_UNICODE_TRANSLATION }
  else if size < (wide.length : Int) then
    { written := 0, buffer := [], lastError := ERROR_INSUFFICIENT_BUFFER }
  else
    { written := wide.length,
      buffer := wide.map (fun c => if c < 0x80 then c else 0x3F),
      lastError := 0 }

/-- Modelled from the spec: the OS capability `narrowToWide(codePage,
strictFlag, ...)` for the 7-bit code page US-ASCII.  A byte above 0x7F is
invalid there: in strict mode (`MB_ERR_INVALID_CHARS`) the conversion fails,
otherwise the byte becomes U+FFFD. -/
def asciiMultiByteToWideChar : MultiByteToWideChar := fun _ dwFlags source cbMultiByte size =>
  let narrow := source.take cbMultiByte.toNat
  if dwFlags = MB_ERR_INVALID_CHARS ∧ narrow.any (fun b => decide (0x80 ≤ b)) then
    { written := 0, buffer := [], lastError := ERROR_NO_UNICODE_TRANSLATION }
  else if size < (narrow.length : Int) then
    { written := 0, buffer := [], lastError := ERROR_INSUFFICIENT_BUFFER }
  else
    { written := narrow.length,
      buffer := narrow.map (fun b => if b < 0x80 then b else 0xFFFD),
      lastError := 0 }

/-- A stand-in for `IceUtilInternal::lastErrorToString`, which is not part of
the source at hand: the text of an error code. -/
def lastErrorToString (code : Nat) : String :=
  if code = ERROR_NO_UNICODE_TRANSLATION then "no mapping for the Unicode character"
  else "conversion failed"

end Ice

namespace Ice

/-! ## The sink and the loop of `UnicodeWstringConverter::toUTF8` -/

theorem store_take (bytes : List Byte) (start : Nat) (w : List Byte)
    (h : start ≤ bytes.length) :
    (store bytes start w).take (start + w.length) = bytes.take start ++ w := by
  have hl : (bytes.take start ++ w).length = start + w.length := by
    rw [List.length_append, List.length_take, Nat.min_eq_left h]
  unfold store
  rw [← hl]
  exact List.take_left _ _

theorem store_length (bytes : List Byte) (start : Nat) (w : List Byte)
    (h : start ≤ bytes.length) : start + w.length ≤ (store bytes start w).length := by
  unfold store
  rw [List.length_append, List.length_append, List.length_take, Nat.min_eq_left h]
  omega

theorem store_nil (bytes : List Byte) (start : Nat) : store bytes start [] = bytes := by
  simp [store]

namespace UnicodeWstringConverter

theorem growStep_requests (chunkSize : Nat) (st : ToUTF8State) :
    (growStep chunkSize st).buffer.requests
      = st.buffer.requests ++ [(chunkSize, some st.targetStart)] := rfl

theorem growStep_sourceStart (chunkSize : Nat) (st : ToUTF8State) :
    (growStep chunkSize st).sourceStart = st.sourceStart := rfl

theorem growStep_window (chunkSize : Nat) (st : ToUTF8State) :
    (growStep chunkSize st).targetEnd - (growStep chunkSize st).targetStart = chunkSize := by
  simp [growStep]

theorem growStep_committed (chunkSize : Nat) (st : ToUTF8State) :
    (growStep chunkSize st).buffer.bytes.take (growStep chunkSize st).targetStart
      = st.buffer.bytes.take st.targetStart := by
  simp [growStep, UTF8Buffer.getMoreBytes]

theorem growStep_inside (chunkSize : Nat) (st : ToUTF8State) :
    (growStep chunkSize st).targetStart ≤ (growStep chunkSize st).buffer.bytes.length := by
  simp [growStep, UTF8Buffer.getMoreBytes]

theorem convertStep_requests (conv : WideToUtf8) (flags : ConversionFlags)
    (source : List Wchar) (st : ToUTF8State) :
    (convertStep conv flags source st).2.buffer.requests = st.buffer.requests := rfl

theorem convertStep_committed (conv : WideToUtf8) (flags : ConversionFlags)
    (source : List Wchar) (st : ToUTF8State) (h : st.targetStart ≤ st.buffer.bytes.length) :
    (convertStep conv flags source st).2.buffer.bytes.take
        (convertStep conv flags source st).2.targetStart
      = st.buffer.bytes.take st.targetStart
        ++ (conv (source.drop st.sourceStart) (st.targetEnd - st.targetStart) flags).written := by
  simp only [convertStep]
  exact store_take _ _ _ h

theorem convertStep_inside (conv : WideToUtf8) (flags : ConversionFlags)
    (source : List Wchar) (st : ToUTF8State) (h : st.targetStart ≤ st.buffer.bytes.length) :
    (convertStep conv flags source st).2.targetStart
      ≤ (convertStep conv flags source st).2.buffer.bytes.length := by
  simp only [convertStep]
  exact store_length _ _ _ h

theorem toUTF8Init_inside (source : List Wchar) (buffer : UTF8Buffer) :
    (toUTF8Init source buffer).targetStart ≤ (toUTF8Init source buffer).buffer.bytes.length := by
  simp [toUTF8Init, UTF8Buffer.getMoreBytes]

theorem toUTF8Init_committed (source : List Wchar) (buffer : UTF8Buffer) :
    (toUTF8Init source buffer).buffer.bytes.take (toUTF8Init source buffer).targetStart
      = buffer.bytes := by
  simp [toUTF8Init, UTF8Buffer.getMoreBytes]

/-- The loop never ends on `targetExhausted`. -/
theorem toUTF8Loop_result (conv : WideToUtf8) (flags : ConversionFlags) (source : List Wchar)
    (chunkSize : Nat) :
    ∀ (fuel : Nat) (st : ToUTF8State),
      (toUTF8Loop conv flags source chunkSize fuel st).1
        ≠ some ConversionResult.targetExhausted := by
  intro fuel
  induction fuel with
  | zero => intro st; simp [toUTF8Loop]
  | succ n ih =>
    intro st
    rw [toUTF8Loop]
    by_cases h : (convertStep conv flags source st).1 = ConversionResult.targetExhausted
    · simp only [h, if_true]
      exact ih _
    · simp only [h, if_false]
      intro hc
      exact h (Option.some.inj hc)

/-- Every request the loop makes asks for `chunkSize` bytes and names the
previous window. -/
theorem toUTF8Loop_requests (conv : WideToUtf8) (flags : ConversionFlags) (source : List Wchar)
    (chunkSize : Nat) :
    ∀ (fuel : Nat) (st : ToUTF8State),
      ∃ more : List (Nat × Option Nat),
        (toUTF8Loop conv flags source chunkSize fuel st).2.buffer.requests
          = st.buffer.requests ++ more ∧
        ∀ q ∈ more, q.1 = chunkSize ∧ q.2 ≠ none := by
  intro fuel
  induction fuel with
  | zero => intro st; exact ⟨[], by simp [toUTF8Loop], by simp⟩
  | succ n ih =>
    intro st
    rw [toUTF8Loop]
    by_cases h : (convertStep conv flags source st).1 = ConversionResult.targetExhausted
    · simp only [h, if_true]
      obtain ⟨more, hm, hall⟩ := ih (growStep chunkSize (convertStep conv flags source st).2)
      refine ⟨(chunkSize, some (convertStep conv flags source st).2.targetStart) :: more, ?_, ?_⟩
      · rw [hm, growStep_requests, convertStep_requests]
        simp
      · intro q hq
        rcases List.mem_cons.mp hq with rfl | hq
        · simp
        · exact hall q hq
    · simp only [h, if_false]
      exact ⟨[], by simp [convertStep_requests], by simp⟩

/-- More fuel does not change the outcome of a loop that has ended. -/
theorem toUTF8Loop_mono (conv : WideToUtf8) (flags : ConversionFlags) (source : List Wchar)
    (chunkSize : Nat) :
    ∀ (fuel : Nat) (st : ToUTF8State) (r : ConversionResult) (st1 : ToUTF8State) (k : Nat),
      toUTF8Loop conv flags source chunkSize fuel st = (some r, st1) →
      toUTF8Loop conv flags source chunkSize (fuel + k) st = (some r, st1) := by
  intro fuel
  induction fuel with
  | zero => intro st r st1 k h; simp [toUTF8Loop] at h
  | succ n ih =>
    intro st r st1 k h
    rw [show n + 1 + k = (n + k) + 1 by omega, toUTF8Loop]
    rw [toUTF8Loop] at h
    by_cases hx : (convertStep conv flags source st).1 = ConversionResult.targetExhausted
    · simp only [hx, if_true] at h ⊢
      exact ih _ r st1 k h
    · simp only [hx, if_false] at h ⊢
      exact h

/-- With a capability that resumes, a loop that ends on `conversionOK` has
committed the encoding of the part of the source that was still to convert. -/
theorem toUTF8Loop_committed (conv : WideToUtf8) (utf8 : List Wchar → List Byte)
    (hres : Resumes conv utf8) (flags : ConversionFlags) (source : List Wchar)
    (chunkSize : Nat) :
    ∀ (fuel : Nat) (st st1 : ToUTF8State),
      st.targetStart ≤ st.buffer.bytes.length →
      toUTF8Loop conv flags source chunkSize fuel st
        = (some ConversionResult.conversionOK, st1) →
      st1.buffer.bytes.take st1.targetStart
          = st.buffer.bytes.take st.targetStart ++ utf8 (source.drop st.sourceStart) ∧
        st1.targetStart ≤ st1.buffer.bytes.length := by
  intro fuel
  induction fuel with
  | zero => intro st st1 _ h; simp [toUTF8Loop] at h
  | succ n ih =>
    intro st st1 hin h
    rw [toUTF8Loop] at h
    have hc := convertStep_committed conv flags source st hin
    have hi := convertStep_inside conv flags source st hin
    by_cases hx : (convertStep conv flags source st).1 = ConversionResult.targetExhausted
    · simp only [hx, if_true] at h
      obtain ⟨h1, h2⟩ := ih _ st1 (growStep_inside chunkSize _) h
      refine ⟨?_, h2⟩
      rw [h1, growStep_committed chunkSize _, hc, growStep_sourceStart]
      have hr := hres.exhausted (source.drop st.sourceStart) (st.targetEnd - st.targetStart)
        flags hx
      rw [hr, List.drop_drop, List.append_assoc]
      rfl
    · simp only [hx, if_false] at h
      have h1 : (convertStep conv flags source st).1 = ConversionResult.conversionOK :=
        Option.some.inj (congrArg Prod.fst h)
      have h2 : (convertStep conv flags source st).2 = st1 := congrArg Prod.snd h
      have hr := hres.ok (source.drop st.sourceStart) (st.targetEnd - st.targetStart) flags h1
      rw [← h2]
      exact ⟨by rw [hc, hr], hi⟩

end UnicodeWstringConverter

end Ice

namespace Ice

namespace UnicodeWstringConverter

/-- With a capability that needs at most 6 bytes a unit, a window of at least
6 bytes lets every invocation that reports `targetExhausted` advance by at
least one unit and leave at least one unit to convert. -/
theorem exhausted_advances (conv : WideToUtf8) (need : Wchar → Nat)
    (hsix : SixBytesPerUnit conv need) (src : List Wchar) (cap : Nat) (flags : ConversionFlags)
    (hcap : 6 ≤ cap)
    (hx : (conv src cap flags).result = ConversionResult.targetExhausted) :
    1 ≤ (conv src cap flags).sourceAdvance ∧ (conv src cap flags).sourceAdvance < src.length := by
  obtain ⟨u, hu, hfit⟩ := hsix.exhausted src cap flags hx
  have hlt : (conv src cap flags).sourceAdvance < src.length := by
    rw [List.get?_eq_some] at hu
    exact hu.1
  refine ⟨?_, hlt⟩
  by_contra hzero
  have h0 : (conv src cap flags).sourceAdvance = 0 := by omega
  rw [h0] at hfit
  have := hsix.need_le u
  simp at hfit
  omega

/-- With such a capability the loop ends within one invocation more than there
are units left, and asks the sink at most once a unit left. -/
theorem toUTF8Loop_terminates (conv : WideToUtf8) (need : Wchar → Nat)
    (hsix : SixBytesPerUnit conv need) (flags : ConversionFlags) (source : List Wchar)
    (chunkSize : Nat) (hchunk : 6 ≤ chunkSize) :
    ∀ (fuel : Nat) (st : ToUTF8State),
      st.targetEnd - st.targetStart = chunkSize →
      source.length - st.sourceStart + 1 ≤ fuel →
      (∃ r, (toUTF8Loop conv flags source chunkSize fuel st).1 = some r) ∧
        (toUTF8Loop conv flags source chunkSize fuel st).2.buffer.requests.length
          ≤ st.buffer.requests.length + (source.length - st.sourceStart) := by
  intro fuel
  induction fuel with
  | zero => intro st _ h; omega
  | succ n ih =>
    intro st hwin hfuel
    rw [toUTF8Loop]
    by_cases hx : (convertStep conv flags source st).1 = ConversionResult.targetExhausted
    · simp only [hx, if_true]
      have hadv := exhausted_advances conv need hsix (source.drop st.sourceStart)
        (st.targetEnd - st.targetStart) flags (by omega) hx
      rw [List.length_drop] at hadv
      have hss : (growStep chunkSize (convertStep conv flags source st).2).sourceStart
          = st.sourceStart
            + (conv (source.drop st.sourceStart) (st.targetEnd - st.targetStart)
                flags).sourceAdvance := rfl
      have hrq : (growStep chunkSize (convertStep conv flags source st).2).buffer.requests.length
          = st.buffer.requests.length + 1 := by
        rw [growStep_requests, convertStep_requests, List.length_append]
        rfl
      obtain ⟨h1, h2⟩ := ih (growStep chunkSize (convertStep conv flags source st).2)
        (growStep_window chunkSize _) (by rw [hss]; omega)
      refine ⟨h1, ?_⟩
      rw [hrq, hss] at h2
      omega
    · simp only [hx, if_false]
      exact ⟨⟨_, rfl⟩, by rw [convertStep_requests]; omega⟩

end UnicodeWstringConverter

/-! ## The UTF-32 and UTF-8 capability -/

theorem encodeChar_length_pos (c : Nat) : 1 ≤ (encodeChar c).length := by
  unfold encodeChar
  split_ifs <;> simp

theorem encodeChar_length_le (c : Nat) : (encodeChar c).length ≤ 6 := by
  unfold encodeChar
  split_ifs <;> simp

theorem utf8Encoding_cons (c : Nat) (rest : List Nat) :
    utf8Encoding (c :: rest) = encodeChar c ++ utf8Encoding rest := by
  simp [utf8Encoding]

theorem utf8Encoding_eq_nil (w : List Nat) (h : utf8Encoding w = []) : w = [] := by
  cases w with
  | nil => rfl
  | cons c rest =>
    have h1 := encodeChar_length_pos c
    rw [utf8Encoding_cons] at h
    have h2 := congrArg List.length h
    rw [List.length_append, List.length_nil] at h2
    omega

/-- What an invocation stored is the encoding of the units it advanced over,
and what is left to store is the encoding of the rest. -/
theorem convertUTFWstringToUTF8_written (flags : ConversionFlags) :
    ∀ (src : List Nat) (cap : Nat),
      utf8Encoding src = (convertUTFWstringToUTF8 src cap flags).written
        ++ utf8Encoding (src.drop (convertUTFWstringToUTF8 src cap flags).sourceAdvance) := by
  intro src
  induction src with
  | nil => intro cap; simp [convertUTFWstringToUTF8, utf8Encoding]
  | cons c rest ih =>
    intro cap
    rw [convertUTFWstringToUTF8]
    split_ifs with h1 h2
    · simp only [List.drop_succ_cons, List.append_assoc]
      rw [utf8Encoding_cons, ← ih]
    · simp
    · simp

/-- An invocation that reports `conversionOK` advanced to the end of the range. -/
theorem convertUTFWstringToUTF8_ok (flags : ConversionFlags) :
    ∀ (src : List Nat) (cap : Nat),
      (convertUTFWstringToUTF8 src cap flags).result = ConversionResult.conversionOK →
      (convertUTFWstringToUTF8 src cap flags).sourceAdvance = src.length := by
  intro src
  induction src with
  | nil => intro cap _; simp [convertUTFWstringToUTF8]
  | cons c rest ih =>
    intro cap
    rw [convertUTFWstringToUTF8]
    split_ifs with h1 h2
    · intro h
      simp only [List.length_cons, Nat.add_right_cancel_iff]
      exact ih _ h
    · intro h; simp at h
    · intro h; simp at h

theorem convertUTFWstringToUTF8_resumes : Resumes convertUTFWstringToUTF8 utf8Encoding where
  exhausted := fun src cap flags _ => convertUTFWstringToUTF8_written flags src cap
  ok := fun src cap flags h => by
    have h1 := convertUTFWstringToUTF8_written flags src cap
    rw [convertUTFWstringToUTF8_ok flags src cap h, List.drop_length] at h1
    rw [h1]
    simp [utf8Encoding]

/-- Where an invocation reports `targetExhausted`, the unit it stopped at did
not fit in the window after the units before it. -/
theorem convertUTFWstringToUTF8_exhausted (flags : ConversionFlags) :
    ∀ (src : List Nat) (cap : Nat),
      (convertUTFWstringToUTF8 src cap flags).result = ConversionResult.targetExhausted →
      ∃ u, src.get? (convertUTFWstringToUTF8 src cap flags).sourceAdvance = some u ∧
        cap < ((src.take (convertUTFWstringToUTF8 src cap flags).sourceAdvance).map
          (fun c => (encodeChar c).length)).sum + (encodeChar u).length := by
  intro src
  induction src with
  | nil => intro cap h; simp [convertUTFWstringToUTF8] at h
  | cons c rest ih =>
    intro cap
    rw [convertUTFWstringToUTF8]
    split_ifs with h1 h2
    · intro h
      obtain ⟨u, hu, hfit⟩ := ih _ h
      refine ⟨u, by simpa using hu, ?_⟩
      simp only [List.take_succ_cons, List.map_cons, List.sum_cons]
      omega
    · intro _
      exact ⟨c, by simp, by simp; omega⟩
    · intro h; simp at h

theorem convertUTFWstringToUTF8_sixBytesPerUnit :
    SixBytesPerUnit convertUTFWstringToUTF8 (fun c => (encodeChar c).length) where
  need_le := encodeChar_length_le
  exhausted := fun src cap flags h => convertUTFWstringToUTF8_exhausted flags src cap h

/-- A range of scalar values is never rejected. -/
theorem convertUTFWstringToUTF8_scalar (flags : ConversionFlags) :
    ∀ (src : List Nat) (cap : Nat), (∀ c ∈ src, isScalarValue c) →
      (convertUTFWstringToUTF8 src cap flags).result = ConversionResult.conversionOK ∨
      (convertUTFWstringToUTF8 src cap flags).result = ConversionResult.targetExhausted := by
  intro src
  induction src with
  | nil => intro cap _; simp [convertUTFWstringToUTF8]
  | cons c rest ih =>
    intro cap hs
    rw [convertUTFWstringToUTF8]
    split_ifs with h1 h2
    · exact ih _ (fun d hd => hs d (List.mem_cons_of_mem c hd))
    · simp
    · exact absurd (hs c (List.mem_cons_self c rest)) h1

end Ice

namespace Ice

theorem decodeFrom_encodeChar (c : Nat) (hc : isScalarValue c) (rest : List Nat) :
    decodeFrom (encodeChar c ++ rest) 0 0 0 = emit c (decodeFrom rest 0 0 0) := by
  have hs := hc
  unfold isScalarValue at hc
  unfold encodeChar
  split_ifs with h1 h2 h3
  · simp [decodeFrom, h1]
  · have e1 : ¬ (0xC0 + c / 64 < 0x80) := by omega
    have e2 : ¬ (0xC0 + c / 64 < 0xC0) := by omega
    have e3 : 0xC0 + c / 64 < 0xE0 := by omega
    have e4 : 0x80 ≤ 0x80 + c % 64 ∧ 0x80 + c % 64 < 0xC0 := by omega
    have e5 : c / 64 * 64 + c % 64 = c := by omega
    have e6 : 0x80 ≤ c := by omega
    simp [decodeFrom, e1, e2, e3, e4, e5, e6, hs]
  · have e1 : ¬ (0xE0 + c / 4096 < 0x80) := by omega
    have e2 : ¬ (0xE0 + c / 4096 < 0xC0) := by omega
    have e3 : ¬ (0xE0 + c / 4096 < 0xE0) := by omega
    have e3' : 0xE0 + c / 4096 < 0xF0 := by omega
    have e4 : 0x80 ≤ 0x80 + c / 64 % 64 ∧ 0x80 + c / 64 % 64 < 0xC0 := by omega
    have e4' : 0x80 ≤ 0x80 + c % 64 ∧ 0x80 + c % 64 < 0xC0 := by omega
    have e5 : (c / 4096 * 64 + c / 64 % 64) * 64 + c % 64 = c := by omega
    have e6 : 0x800 ≤ c := by omega
    simp [decodeFrom, e1, e2, e3, e3', e4, e4', e5, e6, hs]
  · have e1 : ¬ (0xF0 + c / 262144 < 0x80) := by omega
    have e2 : ¬ (0xF0 + c / 262144 < 0xC0) := by omega
    have e3 : ¬ (0xF0 + c / 262144 < 0xE0) := by omega
    have e3' : ¬ (0xF0 + c / 262144 < 0xF0) := by omega
    have e3'' : 0xF0 + c / 262144 < 0xF8 := by omega
    have e4 : 0x80 ≤ 0x80 + c / 4096 % 64 ∧ 0x80 + c / 4096 % 64 < 0xC0 := by omega
    have e4' : 0x80 ≤ 0x80 + c / 64 % 64 ∧ 0x80 + c / 64 % 64 < 0xC0 := by omega
    have e4'' : 0x80 ≤ 0x80 + c % 64 ∧ 0x80 + c % 64 < 0xC0 := by omega
    have e5 : ((c / 262144 * 64 + c / 4096 % 64) * 64 + c / 64 % 64) * 64 + c % 64 = c := by
      omega
    have e6 : 0x10000 ≤ c := by omega
    simp [decodeFrom, e1, e2, e3, e3', e3'', e4, e4', e4'', e5, e6, hs]

/-- Decoding the encoding of a range of scalar values gives the range back. -/
theorem decodeFrom_utf8Encoding (w : List Nat) (hw : ∀ c ∈ w, isScalarValue c) :
    decodeFrom (utf8Encoding w) 0 0 0 = (ConversionResult.conversionOK, w) := by
  induction w with
  | nil => simp [utf8Encoding, decodeFrom]
  | cons c rest ih =>
    have hc : isScalarValue c := hw c (List.mem_cons_self c rest)
    have hr : ∀ d ∈ rest, isScalarValue d := fun d hd => hw d (List.mem_cons_of_mem c hd)
    rw [utf8Encoding_cons, decodeFrom_encodeChar c hc, ih hr]
    rfl

namespace UnicodeWstringConverter

/-- The result a loop ends on is the result of an invocation of the capability
on the source from some offset on. -/
theorem toUTF8Loop_final (conv : WideToUtf8) (flags : ConversionFlags) (source : List Wchar)
    (chunkSize : Nat) :
    ∀ (fuel : Nat) (st : ToUTF8State) (r : ConversionResult),
      (toUTF8Loop conv flags source chunkSize fuel st).1 = some r →
      ∃ offset cap, r = (conv (source.drop offset) cap flags).result := by
  intro fuel
  induction fuel with
  | zero => intro st r h; simp [toUTF8Loop] at h
  | succ n ih =>
    intro st r h
    rw [toUTF8Loop] at h
    by_cases hx : (convertStep conv flags source st).1 = ConversionResult.targetExhausted
    · simp only [hx, if_true] at h
      exact ih _ r h
    · simp only [hx, if_false] at h
      exact ⟨st.sourceStart, st.targetEnd - st.targetStart, (Option.some.inj h).symm⟩

theorem toUTF8_of_run (conv : WideToUtf8) (flags : ConversionFlags) (fuel : Nat)
    (source : List Wchar) (buffer : UTF8Buffer) (r : ConversionResult)
    (h : (toUTF8Run conv flags fuel source buffer).1 = some r) :
    toUTF8 conv flags fuel source buffer
      = (some (toUTF8Switch r (toUTF8Run conv flags fuel source buffer).2.targetStart),
          (toUTF8Run conv flags fuel source buffer).2.buffer) := by
  simp only [toUTF8, h]

/-- A run that ends on `conversionOK` has committed, after what the sink held,
the complete encoding of the source, and `targetStart` is where it ends. -/
theorem toUTF8Run_committed (conv : WideToUtf8) (utf8 : List Wchar → List Byte)
    (hres : Resumes conv utf8) (flags : ConversionFlags) (fuel : Nat) (source : List Wchar)
    (buffer : UTF8Buffer)
    (hok : (toUTF8Run conv flags fuel source buffer).1 = some ConversionResult.conversionOK) :
    (toUTF8Run conv flags fuel source buffer).2.buffer.bytes.take
        (toUTF8Run conv flags fuel source buffer).2.targetStart
      = buffer.bytes ++ utf8 source ∧
    (toUTF8Run conv flags fuel source buffer).2.targetStart
      = buffer.bytes.length + (utf8 source).length := by
  have h := toUTF8Loop_committed conv utf8 hres flags source (max source.length 6) fuel
    (toUTF8Init source buffer) (toUTF8Run conv flags fuel source buffer).2
    (toUTF8Init_inside source buffer) (Prod.ext hok rfl)
  rw [toUTF8Init_committed] at h
  have h0 : (toUTF8Init source buffer).sourceStart = 0 := rfl
  rw [h0, List.drop_zero] at h
  refine ⟨h.1, ?_⟩
  have hl := congrArg List.length h.1
  rw [List.length_take, Nat.min_eq_left h.2, List.length_append] at hl
  exact hl

end UnicodeWstringConverter

end Ice

namespace Ice

namespace UnicodeWstringConverter

/-! ## The claims about `UnicodeWstringConverter` -/

/-- C1: for every wide range `w` of well-formed scalar values (empty or of any
length), `toUTF8` on `w` into a fresh sink returns a write end, and `fromUTF8` on
the bytes of the sink from its start up to that write end succeeds and leaves
the target equal to `w`, whatever the target held before.  The transcoding
capability is the UTF-32 and UTF-8 one modelled above; the fuel is any number
above the length of `w`. -/
theorem roundtrip (flags : ConversionFlags) (w : List Wchar)
    (hw : ∀ c ∈ w, isScalarValue c) (extra : Nat) (target : List Wchar) :
    ∃ writeEnd sink,
      toUTF8 convertUTFWstringToUTF8 flags (w.length + 1 + extra) w UTF8Buffer.fresh
        = (some (Call.returned writeEnd), sink) ∧
      (fromUTF8 convertUTF8ToUTFWstring flags (sink.bytes.take writeEnd) target).call
        = Call.returned () ∧
      (fromUTF8 convertUTF8ToUTFWstring flags (sink.bytes.take writeEnd) target).target = w := by
  obtain ⟨⟨r, hr⟩, _⟩ := toUTF8Loop_terminates convertUTFWstringToUTF8
    (fun c => (encodeChar c).length) convertUTFWstringToUTF8_sixBytesPerUnit flags w
    (max w.length 6) (le_max_right _ _) (w.length + 1) (toUTF8Init w UTF8Buffer.fresh)
    (by simp [toUTF8Init, UTF8Buffer.getMoreBytes]) (by simp [toUTF8Init])
  have hrun : (toUTF8Run convertUTFWstringToUTF8 flags (w.length + 1 + extra) w
      UTF8Buffer.fresh).1 = some r := by
    have := toUTF8Loop_mono convertUTFWstringToUTF8 flags w (max w.length 6) (w.length + 1)
      (toUTF8Init w UTF8Buffer.fresh) r _ extra (Prod.ext hr rfl)
    exact congrArg Prod.fst this
  have hok : r = ConversionResult.conversionOK := by
    obtain ⟨offset, cap, hfin⟩ := toUTF8Loop_final convertUTFWstringToUTF8 flags w _ _ _ r hrun
    have hx := toUTF8Loop_result convertUTFWstringToUTF8 flags w (max w.length 6)
      (w.length + 1 + extra) (toUTF8Init w UTF8Buffer.fresh)
    rcases convertUTFWstringToUTF8_scalar flags (w.drop offset) cap
      (fun c hc => hw c (List.mem_of_mem_drop hc)) with h | h
    · rw [hfin, h]
    · exfalso
      apply hx
      rw [← h, ← hfin]
      exact hrun
  subst hok
  have hcom := toUTF8Run_committed convertUTFWstringToUTF8 utf8Encoding
    convertUTFWstringToUTF8_resumes flags (w.length + 1 + extra) w UTF8Buffer.fresh hrun
  refine ⟨_, _, toUTF8_of_run _ _ _ _ _ _ hrun, ?_⟩
  rw [hcom.1]
  have hf : UTF8Buffer.fresh.bytes ++ utf8Encoding w = utf8Encoding w := rfl
  rw [hf]
  by_cases he : utf8Encoding w = []
  · have hnil := utf8Encoding_eq_nil w he
    rw [he, hnil]
    exact ⟨rfl, rfl⟩
  · simp [fromUTF8, he, fromUTF8Switch, convertUTF8ToUTFWstring, decodeFrom_utf8Encoding w hw]

/-- C1, at a range that needs four capacity windows, and at the empty range. -/
theorem roundtrip_witness :
    (∀ c ∈ [0x41, 0xE9, 0x20AC, 0x1F600, 0x1F600, 0x20AC, 0x20AC], isScalarValue c) ∧
    (∃ writeEnd sink,
      toUTF8 convertUTFWstringToUTF8 ConversionFlags.strictConversion (7 + 1 + 0)
          [0x41, 0xE9, 0x20AC, 0x1F600, 0x1F600, 0x20AC, 0x20AC] UTF8Buffer.fresh
        = (some (Call.returned writeEnd), sink) ∧
      (fromUTF8 convertUTF8ToUTFWstring ConversionFlags.strictConversion
          (sink.bytes.take writeEnd) [7, 7]).call = Call.returned () ∧
      (fromUTF8 convertUTF8ToUTFWstring ConversionFlags.strictConversion
          (sink.bytes.take writeEnd) [7, 7]).target
        = [0x41, 0xE9, 0x20AC, 0x1F600, 0x1F600, 0x20AC, 0x20AC]) ∧
    (∃ writeEnd sink,
      toUTF8 convertUTFWstringToUTF8 ConversionFlags.strictConversion (0 + 1 + 0)
          [] UTF8Buffer.fresh
        = (some (Call.returned writeEnd), sink) ∧
      (fromUTF8 convertUTF8ToUTFWstring ConversionFlags.strictConversion
          (sink.bytes.take writeEnd) [7, 7]).call = Call.returned () ∧
      (fromUTF8 convertUTF8ToUTFWstring ConversionFlags.strictConversion
          (sink.bytes.take writeEnd) [7, 7]).target = []) :=
  ⟨by decide,
    roundtrip ConversionFlags.strictConversion
      [0x41, 0xE9, 0x20AC, 0x1F600, 0x1F600, 0x20AC, 0x20AC] (by decide) 0 [7, 7],
    roundtrip ConversionFlags.strictConversion [] (by decide) 0 [7, 7]⟩

/-- The loop follows the results of the capability: entered at the offset of
invocation `i` with a full window, it ends at the first invocation from `i` on
whose result is not `targetExhausted`, on that result. -/
theorem toUTF8Loop_follows (conv : WideToUtf8) (flags : ConversionFlags) (source : List Wchar)
    (chunkSize : Nat) :
    ∀ (k fuel i : Nat) (st : ToUTF8State),
      st.sourceStart = invocationOffset conv flags source chunkSize i →
      st.targetEnd - st.targetStart = chunkSize →
      k < fuel →
      (∀ j, j < k →
        (conv (source.drop (invocationOffset conv flags source chunkSize (i + j))) chunkSize
          flags).result = ConversionResult.targetExhausted) →
      (conv (source.drop (invocationOffset conv flags source chunkSize (i + k))) chunkSize
        flags).result ≠ ConversionResult.targetExhausted →
      (toUTF8Loop conv flags source chunkSize fuel st).1
        = some (conv (source.drop (invocationOffset conv flags source chunkSize (i + k)))
            chunkSize flags).result := by
  intro k
  induction k with
  | zero =>
    intro fuel i st hoff hwin hfuel _ hlast
    obtain ⟨f, rfl⟩ : ∃ f, fuel = f + 1 := ⟨fuel - 1, by omega⟩
    have hs : (convertStep conv flags source st).1
        = (conv (source.drop (invocationOffset conv flags source chunkSize i)) chunkSize
            flags).result := by
      simp only [convertStep, hoff, hwin]
    rw [toUTF8Loop]
    simp only [Nat.add_zero] at hlast ⊢
    simp only [hs, hlast, if_false]
  | succ n ih =>
    intro fuel i st hoff hwin hfuel hbefore hlast
    obtain ⟨f, rfl⟩ : ∃ f, fuel = f + 1 := ⟨fuel - 1, by omega⟩
    have hs : (convertStep conv flags source st).1
        = (conv (source.drop (invocationOffset conv flags source chunkSize i)) chunkSize
            flags).result := by
      simp only [convertStep, hoff, hwin]
    have h0 := hbefore 0 (by omega)
    simp only [Nat.add_zero] at h0
    have hnext : (growStep chunkSize (convertStep conv flags source st).2).sourceStart
        = invocationOffset conv flags source chunkSize (i + 1) := by
      simp only [growStep, convertStep, hoff, hwin, invocationOffset]
    have hrec := ih f (i + 1) (growStep chunkSize (convertStep conv flags source st).2) hnext
      (growStep_window chunkSize _) (by omega)
      (fun j hj => by
        have := hbefore (j + 1) (by omega)
        rw [show i + (j + 1) = i + 1 + j by omega] at this
        exact this)
      (by rw [show i + 1 + n = i + (n + 1) by omega]; exact hlast)
    rw [toUTF8Loop]
    simp only [hs, h0, if_true]
    rw [hrec, show i + 1 + n = i + (n + 1) by omega]

/-- While every invocation reports `targetExhausted`, the loop goes on. -/
theorem toUTF8Loop_goes_on (conv : WideToUtf8) (flags : ConversionFlags) (source : List Wchar)
    (chunkSize : Nat) :
    ∀ (fuel i : Nat) (st : ToUTF8State),
      st.sourceStart = invocationOffset conv flags source chunkSize i →
      st.targetEnd - st.targetStart = chunkSize →
      (∀ j, j < fuel →
        (conv (source.drop (invocationOffset conv flags source chunkSize (i + j))) chunkSize
          flags).result = ConversionResult.targetExhausted) →
      (toUTF8Loop conv flags source chunkSize fuel st).1 = none := by
  intro fuel
  induction fuel with
  | zero => intro i st _ _ _; rfl
  | succ f ih =>
    intro i st hoff hwin hall
    have hs : (convertStep conv flags source st).1
        = (conv (source.drop (invocationOffset conv flags source chunkSize i)) chunkSize
            flags).result := by
      simp only [convertStep, hoff, hwin]
    have h0 := hall 0 (by omega)
    simp only [Nat.add_zero] at h0
    have hnext : (growStep chunkSize (convertStep conv flags source st).2).sourceStart
        = invocationOffset conv flags source chunkSize (i + 1) := by
      simp only [growStep, convertStep, hoff, hwin, invocationOffset]
    rw [toUTF8Loop]
    simp only [hs, h0, if_true]
    exact ih (i + 1) _ hnext (growStep_window chunkSize _)
      (fun j hj => by
        have := hall (j + 1) (by omega)
        rw [show i + (j + 1) = i + 1 + j by omega] at this
        exact this)

/-- The run of `toUTF8` ends on the result of the first invocation of the
capability that does not report `targetExhausted`. -/
theorem toUTF8Run_follows (conv : WideToUtf8) (flags : ConversionFlags) (fuel : Nat)
    (source : List Wchar) (buffer : UTF8Buffer) (k : Nat) (hk : k < fuel)
    (hbefore : ∀ j, j < k →
      invocationResult conv flags source j = ConversionResult.targetExhausted)
    (hlast : invocationResult conv flags source k ≠ ConversionResult.targetExhausted) :
    (toUTF8Run conv flags fuel source buffer).1
      = some (invocationResult conv flags source k) := by
  have h := toUTF8Loop_follows conv flags source (max source.length 6) k fuel 0
    (toUTF8Init source buffer) rfl (by simp [toUTF8Init, UTF8Buffer.getMoreBytes]) hk
    (fun j hj => by simpa [invocationResult] using hbefore j hj)
    (by simpa [invocationResult] using hlast)
  simpa [toUTF8Run, invocationResult] using h

/-- C3: the outcome of `toUTF8` is decided by the final result of the
transcoder, that of its first invocation that does not report
`targetExhausted` (invocation `k`, all invocations before it having reported
`targetExhausted`): on `conversionOK` the call returns, on `sourceExhausted`,
on `sourceIllegal` and on any other result it throws a
`StringConversionException`, with the reasons of the source.  `targetExhausted`
is never reported: while the transcoder reports it the loop goes on.  A call
that has ended has done so in one of these four ways, and it has returned if
and only if the final result is `conversionOK`.  `fromUTF8` on a non-empty
range returns exactly when the result of its one invocation of the transcoder
is `conversionOK` and throws a `StringConversionException` on every other
result. -/
theorem error_policy (conv : WideToUtf8) (dec : Utf8ToWide) (flags : ConversionFlags)
    (fuel : Nat) (source : List Wchar) (buffer : UTF8Buffer) (bytes : List Byte)
    (target : List Wchar) :
    (∀ k, k < fuel →
      (∀ j, j < k → invocationResult conv flags source j = ConversionResult.targetExhausted) →
      (invocationResult conv flags source k = ConversionResult.conversionOK →
        ∃ p, (toUTF8 conv flags fuel source buffer).1 = some (Call.returned p)) ∧
      (invocationResult conv flags source k = ConversionResult.sourceExhausted →
        (toUTF8 conv flags fuel source buffer).1
          = some (Call.threw
              (Thrown.stringConversionException "wide string source exhausted"))) ∧
      (invocationResult conv flags source k = ConversionResult.sourceIllegal →
        (toUTF8 conv flags fuel source buffer).1
          = some (Call.threw (Thrown.stringConversionException "wide string source illegal"))) ∧
      (invocationResult conv flags source k = ConversionResult.unexpected →
        (toUTF8 conv flags fuel source buffer).1
          = some (Call.threw (Thrown.stringConversionException "")))) ∧
    ((∀ j, j < fuel → invocationResult conv flags source j = ConversionResult.targetExhausted) →
      (toUTF8 conv flags fuel source buffer).1 = none) ∧
    (∀ out, (toUTF8 conv flags fuel source buffer).1 = some out →
      ∃ k, k < fuel ∧
        (∀ j, j < k →
          invocationResult conv flags source j = ConversionResult.targetExhausted) ∧
        ((invocationResult conv flags source k = ConversionResult.conversionOK ∧
            ∃ p, out = Call.returned p) ∨
          (invocationResult conv flags source k = ConversionResult.sourceExhausted ∧
            out = Call.threw
              (Thrown.stringConversionException "wide string source exhausted")) ∨
          (invocationResult conv flags source k = ConversionResult.sourceIllegal ∧
            out = Call.threw (Thrown.stringConversionException "wide string source illegal")) ∨
          (invocationResult conv flags source k = ConversionResult.unexpected ∧
            out = Call.threw (Thrown.stringConversionException "")))) ∧
    ((∃ p, (toUTF8 conv flags fuel source buffer).1 = some (Call.returned p)) ↔
      ∃ k, k < fuel ∧
        (∀ j, j < k →
          invocationResult conv flags source j = ConversionResult.targetExhausted) ∧
        invocationResult conv flags source k = ConversionResult.conversionOK) ∧
    (bytes ≠ [] →
      ((dec bytes target flags).1 = ConversionResult.conversionOK →
        (fromUTF8 dec flags bytes target).call = Call.returned ()) ∧
      ((dec bytes target flags).1 = ConversionResult.sourceExhausted →
        (fromUTF8 dec flags bytes target).call
          = Call.threw (Thrown.stringConversionException "UTF-8 string source exhausted")) ∧
      ((dec bytes target flags).1 = ConversionResult.sourceIllegal →
        (fromUTF8 dec flags bytes target).call
          = Call.threw (Thrown.stringConversionException "UTF-8 string source illegal")) ∧
      ((dec bytes target flags).1 = ConversionResult.targetExhausted →
        (fromUTF8 dec flags bytes target).call
          = Call.threw (Thrown.stringConversionException "")) ∧
      ((dec bytes target flags).1 = ConversionResult.unexpected →
        (fromUTF8 dec flags bytes target).call
          = Call.threw (Thrown.stringConversionException "")) ∧
      ((fromUTF8 dec flags bytes target).call = Call.returned () ↔
        (dec bytes target flags).1 = ConversionResult.conversionOK)) := by
  -- the outcome at the first invocation that does not report `targetExhausted`
  have hat : ∀ k, k < fuel →
      (∀ j, j < k → invocationResult conv flags source j = ConversionResult.targetExhausted) →
      invocationResult conv flags source k ≠ ConversionResult.targetExhausted →
      (toUTF8 conv flags fuel source buffer).1
        = some (toUTF8Switch (invocationResult conv flags source k)
            (toUTF8Run conv flags fuel source buffer).2.targetStart) := by
    intro k hk hbefore hlast
    rw [toUTF8_of_run conv flags fuel source buffer _
      (toUTF8Run_follows conv flags fuel source buffer k hk hbefore hlast)]
  have hnone : (∀ j, j < fuel →
      invocationResult conv flags source j = ConversionResult.targetExhausted) →
      (toUTF8 conv flags fuel source buffer).1 = none := by
    intro hall
    have h := toUTF8Loop_goes_on conv flags source (max source.length 6) fuel 0
      (toUTF8Init source buffer) rfl (by simp [toUTF8Init, UTF8Buffer.getMoreBytes])
      (fun j hj => by simpa [invocationResult] using hall j hj)
    have hr : (toUTF8Run conv flags fuel source buffer).1 = none := h
    simp [toUTF8, hr]
  have hends : ∀ out, (toUTF8 conv flags fuel source buffer).1 = some out →
      ∃ k, k < fuel ∧
        (∀ j, j < k →
          invocationResult conv flags source j = ConversionResult.targetExhausted) ∧
        invocationResult conv flags source k ≠ ConversionResult.targetExhausted ∧
        out = toUTF8Switch (invocationResult conv flags source k)
          (toUTF8Run conv flags fuel source buffer).2.targetStart := by
    intro out hout
    have hex : ∃ k, k < fuel ∧
        invocationResult conv flags source k ≠ ConversionResult.targetExhausted := by
      by_contra hno
      have hall : ∀ j, j < fuel →
          invocationResult conv flags source j = ConversionResult.targetExhausted := by
        intro j hj
        by_contra hne
        exact hno ⟨j, hj, hne⟩
      rw [hnone hall] at hout
      exact absurd hout (by simp)
    have hk := Nat.find_spec hex
    have hmin : ∀ j, j < Nat.find hex →
        invocationResult conv flags source j = ConversionResult.targetExhausted := by
      intro j hj
      by_contra hne
      exact Nat.find_min hex hj ⟨by omega, hne⟩
    refine ⟨Nat.find hex, hk.1, hmin, hk.2, ?_⟩
    rw [hat (Nat.find hex) hk.1 hmin hk.2] at hout
    exact (Option.some.inj hout).symm
  refine ⟨?_, hnone, ?_, ?_, ?_⟩
  · intro k hk hbefore
    refine ⟨?_, ?_, ?_, ?_⟩
    · intro h
      exact ⟨_, by rw [hat k hk hbefore (by rw [h]; simp), h]; rfl⟩
    · intro h
      rw [hat k hk hbefore (by rw [h]; simp), h]; rfl
    · intro h
      rw [hat k hk hbefore (by rw [h]; simp), h]; rfl
    · intro h
      rw [hat k hk hbefore (by rw [h]; simp), h]; rfl
  · intro out hout
    obtain ⟨k, hk, hbefore, hlast, hsw⟩ := hends out hout
    refine ⟨k, hk, hbefore, ?_⟩
    cases hr : invocationResult conv flags source k with
    | conversionOK => exact Or.inl ⟨rfl, _, by rw [hsw, hr]; rfl⟩
    | sourceExhausted => exact Or.inr (Or.inl ⟨rfl, by rw [hsw, hr]; rfl⟩)
    | targetExhausted => exact absurd hr hlast
    | sourceIllegal => exact Or.inr (Or.inr (Or.inl ⟨rfl, by rw [hsw, hr]; rfl⟩))
    | unexpected => exact Or.inr (Or.inr (Or.inr ⟨rfl, by rw [hsw, hr]; rfl⟩))
  · constructor
    · rintro ⟨p, hp⟩
      obtain ⟨k, hk, hbefore, hlast, hsw⟩ := hends _ hp
      refine ⟨k, hk, hbefore, ?_⟩
      cases hr : invocationResult conv flags source k with
      | conversionOK => rfl
      | targetExhausted => exact absurd hr hlast
      | sourceExhausted => rw [hr] at hsw; simp [toUTF8Switch] at hsw
      | sourceIllegal => rw [hr] at hsw; simp [toUTF8Switch] at hsw
      | unexpected => rw [hr] at hsw; simp [toUTF8Switch] at hsw
    · rintro ⟨k, hk, hbefore, h⟩
      exact ⟨_, by rw [hat k hk hbefore (by rw [h]; simp), h]; rfl⟩
  · intro hne
    simp only [fromUTF8, hne, if_false]
    refine ⟨?_, ?_, ?_, ?_, ?_, ?_⟩
    · intro h; rw [h]; rfl
    · intro h; rw [h]; rfl
    · intro h; rw [h]; rfl
    · intro h; rw [h]; rfl
    · intro h; rw [h]; rfl
    · cases (dec bytes target flags).1 <;> simp [fromUTF8Switch]

/-- C3, run on the UTF-32 and UTF-8 capability.  On a source of 7 scalar values
the invocations 0, 1 and 2 report `targetExhausted` and invocation 3 reports
`conversionOK`: the call returns.  On a source whose last unit is a surrogate,
invocation 0 reports `sourceIllegal`: the call throws.  On the bytes `E2 82`,
a sequence cut short, the decoder reports `sourceExhausted`: `fromUTF8`
throws. -/
theorem error_policy_witness :
    (∃ p, (toUTF8 convertUTFWstringToUTF8 ConversionFlags.strictConversion 4
        [0x41, 0xE9, 0x20AC, 0x1F600, 0x1F600, 0x20AC, 0x20AC] UTF8Buffer.fresh).1
      = some (Call.returned p)) ∧
    (toUTF8 convertUTFWstringToUTF8 ConversionFlags.strictConversion 4
        [0x41, 0xD800] UTF8Buffer.fresh).1
      = some (Call.threw (Thrown.stringConversionException "wide string source illegal")) ∧
    (toUTF8 convertUTFWstringToUTF8 ConversionFlags.strictConversion 3
        [0x41, 0xE9, 0x20AC, 0x1F600, 0x1F600, 0x20AC, 0x20AC] UTF8Buffer.fresh).1 = none ∧
    (fromUTF8 convertUTF8ToUTFWstring ConversionFlags.strictConversion [0xE2, 0x82] [7]).call
      = Call.threw (Thrown.stringConversionException "UTF-8 string source exhausted") :=
  ⟨((error_policy convertUTFWstringToUTF8 convertUTF8ToUTFWstring
        ConversionFlags.strictConversion 4
        [0x41, 0xE9, 0x20AC, 0x1F600, 0x1F600, 0x20AC, 0x20AC] UTF8Buffer.fresh [0xE2, 0x82]
        [7]).1 3 (by decide) (by decide)).1 (by decide),
    ((error_policy convertUTFWstringToUTF8 convertUTF8ToUTFWstring
        ConversionFlags.strictConversion 4 [0x41, 0xD800] UTF8Buffer.fresh [0xE2, 0x82]
        [7]).1 0 (by decide) (by decide)).2.2.1 (by decide),
    (error_policy convertUTFWstringToUTF8 convertUTF8ToUTFWstring
        ConversionFlags.strictConversion 3
        [0x41, 0xE9, 0x20AC, 0x1F600, 0x1F600, 0x20AC, 0x20AC] UTF8Buffer.fresh [0xE2, 0x82]
        [7]).2.1 (by decide),
    ((error_policy convertUTFWstringToUTF8 convertUTF8ToUTFWstring
        ConversionFlags.strictConversion 4 [0x41, 0xD800] UTF8Buffer.fresh [0xE2, 0x82]
        [7]).2.2.2.2 (by decide)).2.1 (by decide)⟩

/-- C4: every capacity request `toUTF8` makes asks for exactly `max(n, 6)` bytes
for a source of `n` units: the first one, made with no previous window, and
each one made after a `targetExhausted` result, made with the previous window.
This holds for every capability and at every point of the run. -/
theorem fixed_chunk_size (conv : WideToUtf8) (flags : ConversionFlags) (fuel : Nat)
    (source : List Wchar) (buffer : UTF8Buffer) :
    ∃ more : List (Nat × Option Nat),
      (toUTF8 conv flags fuel source buffer).2.requests
        = buffer.requests ++ (max source.length 6, none) :: more ∧
      ∀ q ∈ more, q.1 = max source.length 6 ∧ q.2 ≠ none := by
  obtain ⟨more, hm, hall⟩ := toUTF8Loop_requests conv flags source (max source.length 6) fuel
    (toUTF8Init source buffer)
  refine ⟨more, ?_, hall⟩
  have hb : (toUTF8 conv flags fuel source buffer).2
      = (toUTF8Run conv flags fuel source buffer).2.buffer := by
    cases h : (toUTF8Run conv flags fuel source buffer).1 <;> simp [toUTF8, h]
  rw [hb]
  unfold toUTF8Run
  rw [hm]
  simp [toUTF8Init, UTF8Buffer.getMoreBytes]

/-- C5: on an empty source range, with a capability that reports
`conversionOK` and stores nothing when given an empty range, `toUTF8` returns,
having made exactly one capacity request, of 6 bytes with no previous window;
the position returned is the start of that window (the end of what the sink
held before), so that no byte counts as written. -/
theorem toUTF8_empty (conv : WideToUtf8) (flags : ConversionFlags)
    (hconv : ∀ cap, (conv [] cap flags).result = ConversionResult.conversionOK ∧
      (conv [] cap flags).written = [])
    (fuel : Nat) (buffer : UTF8Buffer) :
    toUTF8 conv flags (fuel + 1) [] buffer
      = (some (Call.returned buffer.bytes.length),
          { bytes := buffer.bytes ++ List.replicate 6 0,
            requests := buffer.requests ++ [(6, none)] }) := by
  have h := hconv 6
  simp [toUTF8, toUTF8Run, toUTF8Loop, convertStep, toUTF8Init, UTF8Buffer.getMoreBytes,
    toUTF8Switch, h.1, h.2, store_nil]

/-- C5, with the UTF-32 and UTF-8 capability and a fresh sink. -/
theorem toUTF8_empty_witness :
    (∀ cap, (convertUTFWstringToUTF8 [] cap ConversionFlags.lenientConversion).result
        = ConversionResult.conversionOK ∧
      (convertUTFWstringToUTF8 [] cap ConversionFlags.lenientConversion).written = []) ∧
    toUTF8 convertUTFWstringToUTF8 ConversionFlags.lenientConversion (0 + 1) [] UTF8Buffer.fresh
      = (some (Call.returned UTF8Buffer.fresh.bytes.length),
          { bytes := UTF8Buffer.fresh.bytes ++ List.replicate 6 0,
            requests := UTF8Buffer.fresh.requests ++ [(6, none)] }) :=
  ⟨fun _ => ⟨rfl, rfl⟩,
    toUTF8_empty convertUTFWstringToUTF8 ConversionFlags.lenientConversion
      (fun _ => ⟨rfl, rfl⟩) 0 UTF8Buffer.fresh⟩

/-- C6: on an empty UTF-8 range, whatever the target held and whatever the
capability is, `fromUTF8` returns, leaves the target empty and has not invoked
the capability: the invocation count is 0, and what the call leaves behind is
the same for every other capability put in its place. -/
theorem fromUTF8_empty (conv : Utf8ToWide) (flags : ConversionFlags) (target : List Wchar) :
    fromUTF8 conv flags [] target
        = { call := Call.returned (), target := [], invocations := 0 } ∧
      ∀ other : Utf8ToWide, fromUTF8 other flags [] target = fromUTF8 conv flags [] target := by
  constructor
  · simp [fromUTF8]
  · intro other
    simp [fromUTF8]

/-- C9: with a capability that needs at most 6 bytes a source unit and that,
when it reports `targetExhausted`, has advanced over every unit whose encoding
fitted in the window, the loop of `toUTF8` on a source of `n` units ends within
`n + 1` invocations of the capability, and the call makes at most `n + 1`
capacity requests to the sink. -/
theorem toUTF8_terminates (conv : WideToUtf8) (need : Wchar → Nat)
    (hsix : SixBytesPerUnit conv need) (flags : ConversionFlags) (source : List Wchar)
    (buffer : UTF8Buffer) :
    ∃ call sink,
      toUTF8 conv flags (source.length + 1) source buffer = (some call, sink) ∧
      sink.requests.length ≤ buffer.requests.length + (source.length + 1) := by
  obtain ⟨⟨r, hr⟩, hq⟩ := toUTF8Loop_terminates conv need hsix flags source
    (max source.length 6) (le_max_right _ _) (source.length + 1) (toUTF8Init source buffer)
    (by simp [toUTF8Init, UTF8Buffer.getMoreBytes]) (by simp [toUTF8Init])
  refine ⟨_, _, toUTF8_of_run conv flags _ source buffer r hr, ?_⟩
  have h0 : (toUTF8Init source buffer).buffer.requests.length = buffer.requests.length + 1 := by
    simp [toUTF8Init, UTF8Buffer.getMoreBytes]
  have h1 : (toUTF8Init source buffer).sourceStart = 0 := rfl
  rw [h0, h1] at hq
  unfold toUTF8Run
  omega

/-- C9, with the UTF-32 and UTF-8 capability at a source of 7 units. -/
theorem toUTF8_terminates_witness :
    SixBytesPerUnit convertUTFWstringToUTF8 (fun c => (encodeChar c).length) ∧
    ∃ call sink,
      toUTF8 convertUTFWstringToUTF8 ConversionFlags.strictConversion
          ([0x41, 0xE9, 0x20AC, 0x1F600, 0x1F600, 0x20AC, 0x20AC].length + 1)
          [0x41, 0xE9, 0x20AC, 0x1F600, 0x1F600, 0x20AC, 0x20AC] UTF8Buffer.fresh
        = (some call, sink) ∧
      sink.requests.length ≤ UTF8Buffer.fresh.requests.length
        + ([0x41, 0xE9, 0x20AC, 0x1F600, 0x1F600, 0x20AC, 0x20AC].length + 1) :=
  ⟨convertUTFWstringToUTF8_sixBytesPerUnit,
    toUTF8_terminates convertUTFWstringToUTF8 (fun c => (encodeChar c).length)
      convertUTFWstringToUTF8_sixBytesPerUnit ConversionFlags.strictConversion
      [0x41, 0xE9, 0x20AC, 0x1F600, 0x1F600, 0x20AC, 0x20AC] UTF8Buffer.fresh⟩

end UnicodeWstringConverter

end Ice

namespace Ice

/-! ## The retry loop of the Windows converter -/

theorem int32_of_range (x : Int) (h0 : 0 ≤ x) (h1 : x < 2147483648) : int32 x = x := by
  unfold int32
  omega

theorem needing_succeedsFrom (required : Int) (h : 0 < required) :
    SucceedsFrom (needing required) required := by
  intro size
  constructor
  · intro hlt
    simp [needing, hlt]
  · intro hle
    have hn : ¬ size < required := by omega
    simp only [needing, hn, if_false]
    omega

namespace WindowsStringConverter

/-- From a capacity `s` that was insufficient, the loop doubles until the
required size is reached, as long as the doubling stays within `int`. -/
theorem retry_from {α : Type} (call : Int → OsResult α) (sourceSize : Int) (required : Int)
    (hreq : SucceedsFrom call required) :
    ∀ (m : Nat) (s : Int) (given : List Int) (fuel : Nat),
      0 < s → required ≤ s * 2 ^ (m + 1) → (∀ j, j < m → s * 2 ^ (j + 1) < required) →
      s * 2 ^ (m + 1) < 2147483648 → m + 1 ≤ fuel →
      retry call sourceSize fuel s given
        = (RetryEnd.finished (call (s * 2 ^ (m + 1))),
            given ++ (List.range (m + 1)).map (fun j => s * 2 ^ (j + 1))) := by
  intro m
  induction m with
  | zero =>
    intro s given fuel hs hreach _ hfit hfuel
    obtain ⟨f, rfl⟩ : ∃ f, fuel = f + 1 := ⟨fuel - 1, by omega⟩
    have e : s * 2 ^ (0 + 1) = 2 * s := by ring
    rw [e] at hreach hfit ⊢
    have h32 : int32 (2 * s) = 2 * s := int32_of_range _ (by omega) hfit
    have hw := (hreq (2 * s)).2 hreach
    have hs0 : s ≠ 0 := by omega
    have hneg : ¬ (2 * s < 0) := by omega
    have hl : List.map (fun j => s * 2 ^ (j + 1)) (List.range 1) = [2 * s] := by
      simp [List.range_succ, mul_comm]
    simp [retry, hs0, h32, hneg, hw, hl]
  | succ n ih =>
    intro s given fuel hs hreach hbelow hfit hfuel
    obtain ⟨f, rfl⟩ : ∃ f, fuel = f + 1 := ⟨fuel - 1, by omega⟩
    have hpow : (1 : Int) ≤ 2 ^ (n + 1) := one_le_pow₀ (by norm_num)
    have e : s * 2 ^ (n + 1 + 1) = (2 * s) * 2 ^ (n + 1) := by ring
    have h2 : 2 * s < 2147483648 := by
      rw [e] at hfit
      nlinarith
    have h32 : int32 (2 * s) = 2 * s := int32_of_range _ (by omega) h2
    have hlow : 2 * s < required := by
      have := hbelow 0 (by omega)
      simpa [mul_comm] using this
    have hw := (hreq (2 * s)).1 hlow
    have hs0 : s ≠ 0 := by omega
    have hneg : ¬ (2 * s < 0) := by omega
    have hrec := ih (2 * s) (given ++ [2 * s]) f (by omega) (by rw [← e]; exact hreach)
      (fun j hj => by
        have := hbelow (j + 1) (by omega)
        have e2 : s * 2 ^ (j + 1 + 1) = 2 * s * 2 ^ (j + 1) := by ring
        rw [← e2]; exact this)
      (by rw [← e]; exact hfit) (by omega)
    rw [retry]
    simp only [hs0, if_false, h32, hneg, hw, and_self, if_true]
    rw [hrec, ← e, List.append_assoc]
    congr 2
    rw [List.range_succ_eq_map (n + 1), List.map_cons, List.map_map]
    simp only [List.singleton_append, List.cons.injEq]
    refine ⟨by ring, ?_⟩
    apply List.map_congr_left
    intro j _
    simp only [Function.comp, Nat.succ_eq_add_one]
    ring

/-- From its start, on a source of `n` units, the loop gives the capability
the capacities `(n + 2) * 2 ^ k` for `k` from 0 to the least `K` that reaches the
required size, and ends there, as long as `(n + 2) * 2 ^ K` is an `int`. -/
theorem retry_doubling {α : Type} (call : Int → OsResult α) (n : Nat) (required : Int)
    (hreq : SucceedsFrom call required) (K : Nat)
    (hreach : required ≤ ((n : Int) + 2) * 2 ^ K)
    (hbelow : ∀ j, j < K → ((n : Int) + 2) * 2 ^ j < required)
    (hfit : ((n : Int) + 2) * 2 ^ K < 2147483648) (fuel : Nat) (hfuel : K + 1 ≤ fuel) :
    retry call (int32 n) fuel 0 []
      = (RetryEnd.finished (call (((n : Int) + 2) * 2 ^ K)),
          (List.range (K + 1)).map (fun k => ((n : Int) + 2) * 2 ^ k)) := by
  obtain ⟨f, rfl⟩ : ∃ f, fuel = f + 1 := ⟨fuel - 1, by omega⟩
  have hpow : (1 : Int) ≤ 2 ^ K := one_le_pow₀ (by norm_num)
  have hn2 : (n : Int) + 2 < 2147483648 := by nlinarith
  have hn : int32 (n : Int) = n := int32_of_range _ (by omega) (by omega)
  have h32 : int32 ((n : Int) + 2) = n + 2 := int32_of_range _ (by omega) hn2
  have hneg : ¬ ((n : Int) + 2 < 0) := by omega
  rw [retry]
  simp only [if_true, hn, h32, hneg, if_false]
  cases K with
  | zero =>
    have hw := (hreq ((n : Int) + 2)).2 (by simpa using hreach)
    simp [hw, List.range_succ]
  | succ m =>
    have hlow : (n : Int) + 2 < required := by simpa using hbelow 0 (by omega)
    have hw := (hreq ((n : Int) + 2)).1 hlow
    simp only [hw, and_self, if_true, List.nil_append]
    have hrec := retry_from call (n : Int) required hreq m ((n : Int) + 2) [(n : Int) + 2] f
      (by omega) hreach (fun j hj => hbelow (j + 1) (by omega)) hfit (by omega)
    have hl : [(n : Int) + 2] ++ List.map (fun j => ((n : Int) + 2) * 2 ^ (j + 1))
        (List.range (m + 1))
        = List.map (fun k => ((n : Int) + 2) * 2 ^ k) (List.range (m + 1 + 1)) := by
      rw [List.range_succ_eq_map (m + 1), List.map_cons, List.map_map]
      simp only [List.singleton_append, List.cons.injEq]
      refine ⟨by ring, ?_⟩
      apply List.map_congr_left
      intro j _
      simp only [Function.comp, Nat.succ_eq_add_one]
    rw [hrec, hl]

/-- A loop that ended with a result of the capability ended with the result of
one invocation, and that result is not insufficient-buffer. -/
theorem retry_finished {α : Type} (call : Int → OsResult α) (sourceSize : Int) :
    ∀ (fuel : Nat) (size : Int) (given : List Int) (r : OsResult α),
      (retry call sourceSize fuel size given).1 = RetryEnd.finished r →
      ∃ capacity, r = call capacity ∧
        ¬ (r.written = 0 ∧ r.lastError = ERROR_INSUFFICIENT_BUFFER) := by
  intro fuel
  induction fuel with
  | zero => intro size given r h; simp [retry] at h
  | succ n ih =>
    intro size given r h
    rw [retry] at h
    dsimp only at h
    generalize (if size = 0 then int32 (sourceSize + 2) else int32 (2 * size)) = size1 at h
    by_cases h1 : size1 < 0
    · simp [h1] at h
    · by_cases h2 : (call size1).written = 0 ∧ (call size1).lastError = ERROR_INSUFFICIENT_BUFFER
      · simp only [h1, if_false, h2, and_self, if_true] at h
        exact ih _ _ r h
      · simp only [h1, if_false, h2, RetryEnd.finished.injEq] at h
        exact ⟨size1, h.symm, by rw [← h]; exact h2⟩

end WindowsStringConverter

end Ice

namespace Ice

namespace WindowsStringConverter

/-- Whatever the capability does, the capacities the loop has given it are
`(n + 2) * 2 ^ k` for `k` below their number, all of them within `int`; the
number grows by one an invocation while the loop is running. -/
theorem retry_capacities_from {α : Type} (call : Int → OsResult α) (n : Nat)
    (hn : (n : Int) + 2 < 2147483648) :
    ∀ (fuel m : Nat) (size : Int) (given : List Int),
      given = (List.range m).map (fun k => ((n : Int) + 2) * 2 ^ k) →
      (if size = 0 then (n : Int) + 2 else 2 * size) = ((n : Int) + 2) * 2 ^ m →
      0 ≤ size → size < 2147483648 →
      (1 ≤ m → ((n : Int) + 2) * 2 ^ (m - 1) < 2147483648) →
      ∃ m1, m ≤ m1 ∧ m1 ≤ m + fuel ∧
        (retry call (int32 n) fuel size given).2
          = (List.range m1).map (fun k => ((n : Int) + 2) * 2 ^ k) ∧
        (1 ≤ m1 → ((n : Int) + 2) * 2 ^ (m1 - 1) < 2147483648) ∧
        ((retry call (int32 n) fuel size given).1 = RetryEnd.running → m1 = m + fuel) := by
  have hn32 : int32 (n : Int) = n := int32_of_range _ (by omega) (by omega)
  intro fuel
  induction fuel with
  | zero =>
    intro m size given hg _ _ _ hb
    exact ⟨m, le_refl m, le_refl m, by simpa [retry] using hg, hb, fun _ => rfl⟩
  | succ f ih =>
    intro m size given hg hc h0 h1 hb
    have hs1 : (if size = 0 then int32 (int32 (n : Int) + 2) else int32 (2 * size))
        = int32 (((n : Int) + 2) * 2 ^ m) := by
      rw [← hc, hn32]
      split_ifs <;> rfl
    have hpos : 0 < ((n : Int) + 2) * 2 ^ m := by positivity
    have hlt : ((n : Int) + 2) * 2 ^ m < 4294967296 := by
      rw [← hc]
      split_ifs <;> omega
    have hgiven : given ++ [((n : Int) + 2) * 2 ^ m]
        = (List.range (m + 1)).map (fun k => ((n : Int) + 2) * 2 ^ k) := by
      rw [List.range_succ, List.map_append, hg]
      rfl
    rw [retry]
    simp only [hs1]
    by_cases hfit : ((n : Int) + 2) * 2 ^ m < 2147483648
    · have h32 : int32 (((n : Int) + 2) * 2 ^ m) = ((n : Int) + 2) * 2 ^ m :=
        int32_of_range _ (by omega) hfit
      have hneg : ¬ (((n : Int) + 2) * 2 ^ m < 0) := by omega
      simp only [h32, hneg, if_false]
      by_cases hw : (call (((n : Int) + 2) * 2 ^ m)).written = 0 ∧
          (call (((n : Int) + 2) * 2 ^ m)).lastError = ERROR_INSUFFICIENT_BUFFER
      · simp only [hw, and_self, if_true]
        have hne : ¬ (((n : Int) + 2) * 2 ^ m = 0) := by omega
        obtain ⟨m1, ha, hb1, hc1, hd1, he1⟩ := ih (m + 1) (((n : Int) + 2) * 2 ^ m)
          (given ++ [((n : Int) + 2) * 2 ^ m]) hgiven
          (by simp only [hne, if_false]; ring) (by omega) hfit
          (fun _ => by simpa using hfit)
        exact ⟨m1, by omega, by omega, hc1, hd1, fun hr => by have := he1 hr; omega⟩
      · simp only [hw, if_false]
        exact ⟨m + 1, by omega, by omega, hgiven, fun _ => by simpa using hfit,
          fun hr => by simp at hr⟩
    · have hneg : int32 (((n : Int) + 2) * 2 ^ m) < 0 := by
        unfold int32
        omega
      simp only [hneg, if_true]
      exact ⟨m, le_refl m, by omega, hg, hb, fun hr => by simp at hr⟩

/-- Whatever the capability does, the loop gives it the capacities
`(n + 2) * 2 ^ k` in turn, at most 31 of them, and has ended within 32
invocations. -/
theorem retry_capacities {α : Type} (call : Int → OsResult α) (n : Nat)
    (hn : (n : Int) + 2 < 2147483648) (fuel : Nat) :
    ∃ m, m ≤ 31 ∧
      (retry call (int32 n) fuel 0 []).2
        = (List.range m).map (fun k => ((n : Int) + 2) * 2 ^ k) ∧
      (32 ≤ fuel → (retry call (int32 n) fuel 0 []).1 ≠ RetryEnd.running) := by
  obtain ⟨m, _, hle, htrace, hbound, hrun⟩ := retry_capacities_from call n hn fuel 0 0 []
    (by simp) (by simp) (le_refl 0) (by norm_num) (fun h => absurd h (by omega))
  have hm : m ≤ 31 := by
    by_contra hcon
    have h1 : 1 ≤ m := by omega
    have h2 := hbound h1
    have h3 : (2 : Int) ^ 31 ≤ 2 ^ (m - 1) := pow_le_pow_right₀ (by norm_num) (by omega)
    have h4 : (0 : Int) < 2 ^ (m - 1) := by positivity
    nlinarith
  refine ⟨m, hm, htrace, ?_⟩
  intro hfuel hr
  have := hrun hr
  omega

end WindowsStringConverter

end Ice

namespace Ice

namespace WindowsStringConverter

/-! ## The claims about `WindowsStringConverter` -/

/-- C7, amended: for a non-empty source of `N` units, with `N + 2` an `int`
(below 2 ^ 31), and whatever the OS capability does: the invocations `toUTF8`
makes of `MultiByteToWideChar` (with `MB_ERR_INVALID_CHARS`) and those
`fromUTF8` makes of `WideCharToMultiByte` are given the capacities
`(N + 2) * 2 ^ k` in turn, `k` = 0, 1, 2, ...; there are at most 31 of them, and
the loop of `fromUTF8` has ended within 32 invocations.  For an OS capability
that reports insufficient-buffer below a required size and succeeds from it on,
with `K` the least `k` such that `(N + 2) * 2 ^ k` is at least the required
size: provided `(N + 2) * 2 ^ K` is an `int`, `toUTF8` makes exactly `K + 1`
invocations and goes on to its second leg with what the last one wrote, and
`fromUTF8`, once its first leg has returned, makes exactly `K + 1` invocations
and returns. -/
theorem doubling_bound (os : MultiByteToWideChar) (os2 : WideCharToMultiByte)
    (conv : WideToUtf8) (dec : Utf8ToWide) (flags : ConversionFlags)
    (errorText : Nat → String) (cp : Nat) (source : List Byte)
    (hne : source ≠ []) (hint : (source.length : Int) + 2 < 2147483648)
    (osFuel fuel : Nat) (buffer : UTF8Buffer) (target : List Byte) :
    (∃ m, m ≤ 31 ∧
      (toUTF8 os conv flags errorText cp osFuel fuel source buffer).invocations
        = (List.range m).map
            (fun k => (MB_ERR_INVALID_CHARS, ((source.length : Int) + 2) * 2 ^ k))) ∧
    (∃ m, m ≤ 31 ∧
      (fromUTF8 dec os2 flags errorText cp osFuel source target).invocations
        = (List.range m).map (fun k => ((0 : Nat), ((source.length : Int) + 2) * 2 ^ k))) ∧
    (32 ≤ osFuel → (fromUTF8 dec os2 flags errorText cp osFuel source target).call ≠ none) ∧
    (∀ (required : Int) (K : Nat),
      required ≤ ((source.length : Int) + 2) * 2 ^ K →
      (∀ j, j < K → ((source.length : Int) + 2) * 2 ^ j < required) →
      ((source.length : Int) + 2) * 2 ^ K < 2147483648 →
      K + 1 ≤ osFuel →
      (SucceedsFrom
          (fun size => os cp MB_ERR_INVALID_CHARS source (int32 source.length) size) required →
        (toUTF8 os conv flags errorText cp osFuel fuel source buffer).invocations
          = (List.range (K + 1)).map
              (fun k => (MB_ERR_INVALID_CHARS, ((source.length : Int) + 2) * 2 ^ k)) ∧
        (toUTF8 os conv flags errorText cp osFuel fuel source buffer).call
          = (UnicodeWstringConverter.toUTF8 conv flags fuel
              ((os cp MB_ERR_INVALID_CHARS source (int32 source.length)
                  (((source.length : Int) + 2) * 2 ^ K)).buffer.take
                (os cp MB_ERR_INVALID_CHARS source (int32 source.length)
                  (((source.length : Int) + 2) * 2 ^ K)).written) buffer).1) ∧
      ((UnicodeWstringConverter.fromUTF8 dec flags source []).call = Call.returned () →
        SucceedsFrom
          (fun size => os2 cp 0 (UnicodeWstringConverter.fromUTF8 dec flags source []).target
            (int32 (UnicodeWstringConverter.fromUTF8 dec flags source []).target.length) size)
          required →
        (fromUTF8 dec os2 flags errorText cp osFuel source target).invocations
          = (List.range (K + 1)).map
              (fun k => ((0 : Nat), ((source.length : Int) + 2) * 2 ^ k)) ∧
        (fromUTF8 dec os2 flags errorText cp osFuel source target).call
          = some (Call.returned ()))) := by
  have hlen : 0 < source.length := List.length_pos.mpr hne
  have hn : int32 (source.length : Int) = source.length :=
    int32_of_range _ (by omega) (by omega)
  have hn0 : ¬ (int32 (source.length : Int) = 0) := by rw [hn]; omega
  obtain ⟨m1, hm1, ht1, _⟩ := retry_capacities
    (fun size => os cp MB_ERR_INVALID_CHARS source (int32 source.length) size)
    source.length hint osFuel
  obtain ⟨m2, hm2, ht2, hr2⟩ := retry_capacities
    (fun size => os2 cp 0 (UnicodeWstringConverter.fromUTF8 dec flags source []).target
      (int32 (UnicodeWstringConverter.fromUTF8 dec flags source []).target.length) size)
    source.length hint osFuel
  refine ⟨⟨m1, hm1, ?_⟩, ?_, ?_, ?_⟩
  · have hinv : (toUTF8 os conv flags errorText cp osFuel fuel source buffer).invocations
        = (retry (fun size => os cp MB_ERR_INVALID_CHARS source (int32 source.length) size)
            (int32 source.length) osFuel 0 []).2.map (fun size => (MB_ERR_INVALID_CHARS, size)) := by
      simp only [toUTF8, hn0, if_false]
      split
      · rfl
      · rfl
      · split <;> rfl
    rw [hinv, ht1, List.map_map]
    rfl
  · cases hu : (UnicodeWstringConverter.fromUTF8 dec flags source []).call with
    | threw e =>
      exact ⟨0, by omega, by simp [fromUTF8, hne, hu]⟩
    | returned v =>
      refine ⟨m2, hm2, ?_⟩
      have hinv : (fromUTF8 dec os2 flags errorText cp osFuel source target).invocations
          = (retry (fun size => os2 cp 0
                (UnicodeWstringConverter.fromUTF8 dec flags source []).target
                (int32 (UnicodeWstringConverter.fromUTF8 dec flags source []).target.length)
                size)
              (int32 source.length) osFuel 0 []).2.map (fun size => ((0 : Nat), size)) := by
        simp only [fromUTF8, hne, if_false, hu]
        split
        · rfl
        · rfl
        · split <;> rfl
      rw [hinv, ht2, List.map_map]
      rfl
  · intro hfuel
    have hrun := hr2 hfuel
    simp only [fromUTF8, hne, if_false]
    split
    · simp
    · split
      · rename_i hl
        exact absurd hl hrun
      · simp
      · split <;> simp
  · intro required K hreach hbelow hfit hfuel
    constructor
    · intro hos
      have h1 := retry_doubling
        (fun size => os cp MB_ERR_INVALID_CHARS source (int32 source.length) size)
        source.length required hos K hreach hbelow hfit osFuel hfuel
      have hw1 := (hos (((source.length : Int) + 2) * 2 ^ K)).2 hreach
      constructor
      · simp only [toUTF8, hn0, if_false, h1]
        simp only [hw1, if_false, List.map_map]
        rfl
      · simp only [toUTF8, hn0, if_false, h1]
        simp only [hw1, if_false]
    · intro hdec hos2
      have h2 := retry_doubling
        (fun size => os2 cp 0 (UnicodeWstringConverter.fromUTF8 dec flags source []).target
          (int32 (UnicodeWstringConverter.fromUTF8 dec flags source []).target.length) size)
        source.length required hos2 K hreach hbelow hfit osFuel hfuel
      have hw2 := (hos2 (((source.length : Int) + 2) * 2 ^ K)).2 hreach
      constructor
      · simp only [fromUTF8, hne, if_false]
        split
        · rename_i e he
          rw [hdec] at he
          exact absurd he (by simp)
        · simp only [h2, hw2, if_false, List.map_map]
          rfl
      · simp only [fromUTF8, hne, if_false]
        split
        · rename_i e he
          rw [hdec] at he
          exact absurd he (by simp)
        · simp only [h2, hw2, if_false]

/-- C7, amended, at a source of one byte and a capability that needs 20 units:
four invocations, with the capacities 3, 6, 12 and 24. -/
theorem doubling_bound_witness :
    ([0x41] : List Byte) ≠ [] ∧
    ((([0x41] : List Byte).length : Int) + 2 < 2147483648) ∧
    (toUTF8 (fun _ _ _ _ => needing 20) convertUTFWstringToUTF8
        ConversionFlags.lenientConversion lastErrorToString 1252 4 21 [0x41]
        UTF8Buffer.fresh).invocations
      = [(MB_ERR_INVALID_CHARS, 3), (MB_ERR_INVALID_CHARS, 6), (MB_ERR_INVALID_CHARS, 12),
          (MB_ERR_INVALID_CHARS, 24)] ∧
    (fromUTF8 convertUTF8ToUTFWstring (fun _ _ _ _ => needing 20)
        ConversionFlags.lenientConversion lastErrorToString 1252 4 [0x41] [9]).invocations
      = [(0, 3), (0, 6), (0, 12), (0, 24)] ∧
    (fromUTF8 convertUTF8ToUTFWstring (fun _ _ _ _ => needing 20)
        ConversionFlags.lenientConversion lastErrorToString 1252 4 [0x41] [9]).call
      = some (Call.returned ()) :=
  have h := (doubling_bound (fun _ _ _ _ => needing 20) (fun _ _ _ _ => needing 20)
    convertUTFWstringToUTF8 convertUTF8ToUTFWstring ConversionFlags.lenientConversion
    lastErrorToString 1252 [0x41] (by decide) (by decide) 4 21 UTF8Buffer.fresh [9]).2.2.2
    20 3 (by decide) (by decide) (by decide) (by decide)
  have h1 := h.1 (needing_succeedsFrom 20 (by decide))
  have h2 := h.2 (by decide) (needing_succeedsFrom 20 (by decide))
  ⟨by decide, by decide, h1.1, h2.1, h2.2⟩

/-- C7 as stated fails where the doubling leaves `int`: for a source of one
byte and a capability that needs 2 ^ 31 - 1 units, the least `k` with
`3 * 2 ^ k` at least that size is 30, but `3 * 2 ^ 30` is no `int`: doubling
`3 * 2 ^ 29` gives `-1073741824`, so that no invocation is given `3 * 2 ^ 30`;
there are 30 invocations, not 31, and the call does not succeed. -/
theorem doubling_overflow :
    SucceedsFrom (needing 2147483647) 2147483647 ∧
    (2147483647 : Int) ≤ ((([0x41] : List Byte).length : Int) + 2) * 2 ^ 30 ∧
    (∀ j, j < 30 → ((([0x41] : List Byte).length : Int) + 2) * 2 ^ j < 2147483647) ∧
    int32 (2 * (3 * 2 ^ 29)) = -1073741824 ∧
    (toUTF8 (fun _ _ _ _ => needing 2147483647) convertUTFWstringToUTF8
        ConversionFlags.lenientConversion lastErrorToString 1252 100 100 [0x41]
        UTF8Buffer.fresh).invocations.length = 30 ∧
    (toUTF8 (fun _ _ _ _ => needing 2147483647) convertUTFWstringToUTF8
        ConversionFlags.lenientConversion lastErrorToString 1252 100 100 [0x41]
        UTF8Buffer.fresh).call = some (Call.threw Thrown.badAlloc) ∧
    (fromUTF8 convertUTF8ToUTFWstring (fun _ _ _ _ => needing 2147483647)
        ConversionFlags.lenientConversion lastErrorToString 1252 100 [0x41]
        [9]).invocations.length = 30 ∧
    (fromUTF8 convertUTF8ToUTFWstring (fun _ _ _ _ => needing 2147483647)
        ConversionFlags.lenientConversion lastErrorToString 1252 100 [0x41] [9]).call
      = some (Call.threw Thrown.badAlloc) :=
  ⟨needing_succeedsFrom 2147483647 (by decide), by decide, by decide, by decide, by decide,
    by decide, by decide, by decide⟩

/-- C8 fails on the code: the wide-to-narrow leg of `fromUTF8` gives
`WideCharToMultiByte` the flags 0, not a strict mode.  On the UTF-8 input
`41 C3 A9` ("A" and U+00E9) under the code page US-ASCII, in which U+00E9 has no
representation, `fromUTF8` returns and the target is `41 3F` ("A?"): the
character was replaced.  The narrow-to-wide leg of `toUTF8` passes
`MB_ERR_INVALID_CHARS`, and `toUTF8` on the bytes `41 E9` throws. -/
theorem fromUTF8_substitutes :
    fromUTF8 convertUTF8ToUTFWstring asciiWideCharToMultiByte
        ConversionFlags.lenientConversion lastErrorToString 20127 4 [0x41, 0xC3, 0xA9] []
      = { call := some (Call.returned ()), target := [0x41, 0x3F], invocations := [(0, 5)] } ∧
    toUTF8 asciiMultiByteToWideChar convertUTFWstringToUTF8
        ConversionFlags.lenientConversion lastErrorToString 20127 4 4 [0x41, 0xE9]
        UTF8Buffer.fresh
      = { call := some (Call.threw
            (Thrown.stringConversionException "no mapping for the Unicode character")),
          buffer := UTF8Buffer.fresh, invocations := [(MB_ERR_INVALID_CHARS, 4)] } :=
  ⟨by decide, by decide⟩

/-- C10: whenever `fromUTF8` throws, be it the exception of its first leg, the
exception for a failure of the OS capability or a failed allocation, the target
is as it was before the call (and so it is while the loop is still running).
When it returns, either the source was empty and the target is empty, or the
first leg returned and the target is exactly the `written` first units of the
buffer of an invocation of the OS capability that wrote a non-zero number of
units. -/
theorem fromUTF8_atomic (dec : Utf8ToWide) (os : WideCharToMultiByte) (flags : ConversionFlags)
    (errorText : Nat → String) (cp : Nat) (osFuel : Nat) (source : List Byte)
    (target : List Byte) :
    (∀ e, (fromUTF8 dec os flags errorText cp osFuel source target).call
        = some (Call.threw e) →
      (fromUTF8 dec os flags errorText cp osFuel source target).target = target) ∧
    ((fromUTF8 dec os flags errorText cp osFuel source target).call = none →
      (fromUTF8 dec os flags errorText cp osFuel source target).target = target) ∧
    (∀ e, source ≠ [] →
      (UnicodeWstringConverter.fromUTF8 dec flags source []).call = Call.threw e →
      (fromUTF8 dec os flags errorText cp osFuel source target).call = some (Call.threw e)) ∧
    ((fromUTF8 dec os flags errorText cp osFuel source target).call
        = some (Call.returned ()) →
      (source = [] ∧ (fromUTF8 dec os flags errorText cp osFuel source target).target = []) ∨
      (source ≠ [] ∧
        (UnicodeWstringConverter.fromUTF8 dec flags source []).call = Call.returned () ∧
        ∃ capacity,
          (os cp 0 (UnicodeWstringConverter.fromUTF8 dec flags source []).target
            (int32 (UnicodeWstringConverter.fromUTF8 dec flags source []).target.length)
            capacity).written ≠ 0 ∧
          (fromUTF8 dec os flags errorText cp osFuel source target).target
            = (os cp 0 (UnicodeWstringConverter.fromUTF8 dec flags source []).target
                (int32 (UnicodeWstringConverter.fromUTF8 dec flags source []).target.length)
                capacity).buffer.take
              (os cp 0 (UnicodeWstringConverter.fromUTF8 dec flags source []).target
                (int32 (UnicodeWstringConverter.fromUTF8 dec flags source []).target.length)
                capacity).written)) := by
  by_cases hne : source = []
  · subst hne
    simp [fromUTF8]
  · cases hu : (UnicodeWstringConverter.fromUTF8 dec flags source []).call with
    | threw e0 =>
      simp [fromUTF8, hne, hu]
    | returned v =>
      cases hl : (retry
          (fun size => os cp 0 (UnicodeWstringConverter.fromUTF8 dec flags source []).target
            (int32 (UnicodeWstringConverter.fromUTF8 dec flags source []).target.length) size)
          (int32 source.length) osFuel 0 []).1 with
      | running => simp [fromUTF8, hne, hu, hl]
      | badAlloc => simp [fromUTF8, hne, hu, hl]
      | finished r =>
        obtain ⟨capacity, hr, _⟩ := retry_finished _ _ _ _ _ r hl
        by_cases hw : r.written = 0
        · simp [fromUTF8, hne, hu, hl, hw]
        · simp only [fromUTF8, hne, hu, hl, hw, if_false]
          refine ⟨by simp, by simp, by simp, ?_⟩
          intro _
          right
          exact ⟨hne, trivial, capacity, by rw [← hr]; exact hw, by rw [← hr]⟩

end WindowsStringConverter

end Ice
